import Mathlib

/-!
# Task scheduler of `core/scheduler.go`

A shallow embedding of the recurring-task scheduler: the task registry, the
per-firing execution wrapper with its statistics, health reporting and the
bounded shutdown.

Conventions of the embedding.

* `W` is the state of everything outside the scheduler that a task's work can
  read or change; a task's work is a function `W → Outcome × W`.
* The `int64` counters `ExecuteCount` and `ErrorCount` start at zero and are
  only ever incremented, so they are natural numbers here; durations and
  timestamps are integers counting nanoseconds.  Values are assumed to stay
  inside the 64-bit range (a counter would need `2^63` firings to leave it).
* `*TaskStats` is a pointer shared by a registered `Task` and by the closure
  that `wrapTask` builds for the same registration.  The statistics live inside
  the `Task` here, and the closure names them by the trigger entry id that the
  registration received: the two are allocated by the same `AddTask` call.
* A call of the wrapper is one transition (`fire`), or two (`enter`, `leave`)
  when other events happen while the task's work runs.  The logger is not
  modelled.
-/

namespace Scheduler

/-! ## Data model -/

/-- Execution statistics of one task (`type TaskStats struct`). -/
structure TaskStats where
  Name : String
  Spec : String
  LastRun : Int
  NextRun : Int
  ExecuteCount : Nat
  ErrorCount : Nat
  LastError : String
  TotalDuration : Int
  AvgDuration : Int
deriving DecidableEq, Repr

/-- What one call of a task's `func() error` does: return `nil`, return an
error with the given `Error()` text, or panic with a value printed as `r`. -/
inductive Outcome where
  | ok
  | err (msg : String)
  | panic (r : String)
deriving DecidableEq, Repr

/-- A task body `func() error` acting on the outside world `W`. -/
abbrev Work (W : Type) := W → Outcome × W

/-- A registered task (`type Task struct`). -/
structure Task (W : Type) where
  Name : String
  Spec : String
  Func : Work W
  EntryID : Nat
  Stats : TaskStats

/-- The closure returned by `wrapTask`: the captured `name` and `fn`.  The
captured `stats` pointer is the `Stats` of the task registered under the
entry that holds the closure. -/
structure Job (W : Type) where
  name : String
  fn : Work W

/-- Modelled from the spec: one armed schedule of the trigger capability
(`cron.Entry` of the external cron library): its handle, its schedule
specification and the job to run. -/
structure Entry (W : Type) where
  ID : Nat
  Spec : String
  Job : Job W

/-- Modelled from the spec: the trigger capability (`*cron.Cron`, an external
library): "register schedule → handle", "cancel(handle)", "stop".  `parser`
answers `some msg` when it rejects a schedule specification and `none` when it
accepts it; handles are handed out from a counter. -/
structure Cron (W : Type) where
  parser : String → Option String
  entries : List (Entry W)
  nextID : Nat
  running : Bool

/-- The scheduler (`type TaskScheduler struct`): the trigger, whether `ctx` has
been cancelled, the `sync.WaitGroup` counter and the task map, kept as a list
in order of registration. -/
structure TaskScheduler (W : Type) where
  cron : Cron W
  cancelled : Bool
  wg : Nat
  tasks : List (Task W)

/-- Errors built by the scheduler with `fmt.Errorf`. -/
inductive SchedulerError where
  /-- The text "task %s already exists". -/
  | alreadyExists (name : String)
  /-- The text "failed to add task %s: %w", wrapping the trigger's error. -/
  | addFailed (name : String) (cause : String)
  /-- The text "task %s not found". -/
  | notFound (name : String)
  /-- The text "shutdown timeout after %v". -/
  | shutdownTimeout (timeout : Int)
deriving DecidableEq, Repr

variable {W : Type}

/-! ## The trigger -/

/-- Modelled from the spec: `cron.New(...)`, a trigger with no entries that is
not dispatching. -/
def Cron.new (parser : String → Option String) : Cron W :=
  { parser := parser, entries := [], nextID := 0, running := false }

/-- Modelled from the spec: `AddFunc`, "register schedule → handle".  A
rejected specification changes nothing. -/
def Cron.AddFunc (c : Cron W) (spec : String) (cmd : Job W) : Cron W × Nat × Option String :=
  match c.parser spec with
  | some msg => (c, 0, some msg)
  | none =>
    let id := c.nextID + 1
    ({ c with nextID := id, entries := c.entries ++ [{ ID := id, Spec := spec, Job := cmd }] },
      id, none)

/-- Modelled from the spec: `Remove`, "cancel(handle)". -/
def Cron.Remove (c : Cron W) (id : Nat) : Cron W :=
  { c with entries := c.entries.filter (fun e => e.ID != id) }

/-- Modelled from the spec: `Entries`, the armed schedules. -/
def Cron.Entries (c : Cron W) : List (Entry W) := c.entries

/-- Modelled from the spec: `Start`, the trigger begins dispatching. -/
def Cron.Start (c : Cron W) : Cron W := { c with running := true }

/-- Modelled from the spec: `Stop`, the trigger stops dispatching; its
completion signal is a time given to `TaskScheduler.Stop`. -/
def Cron.Stop (c : Cron W) : Cron W := { c with running := false }

/-- The entry armed under a handle. -/
def Cron.entry? (c : Cron W) (id : Nat) : Option (Entry W) :=
  c.entries.find? (fun e => e.ID == id)

/-! ## The registry -/

/-- The map read `s.tasks[name]`. -/
def TaskScheduler.lookup (s : TaskScheduler W) (name : String) : Option (Task W) :=
  s.tasks.find? (fun t => t.Name == name)

/-- `GetScheduler`: the scheduler as first created. -/
def GetScheduler (parser : String → Option String) : TaskScheduler W :=
  { cron := Cron.new parser, cancelled := false, wg := 0, tasks := [] }

/-- `Start`: starts the trigger when it has an entry. -/
def TaskScheduler.Start (s : TaskScheduler W) : TaskScheduler W :=
  if s.cron.Entries.length > 0 then { s with cron := s.cron.Start } else s

/-- `AddTask`: the scheduler after the call and the error returned. -/
def TaskScheduler.AddTask (s : TaskScheduler W) (name spec : String) (fn : Work W) :
    TaskScheduler W × Option SchedulerError :=
  if (s.lookup name).isSome then
    (s, some (.alreadyExists name))
  else
    let stats : TaskStats :=
      { Name := name, Spec := spec, LastRun := 0, NextRun := 0, ExecuteCount := 0,
        ErrorCount := 0, LastError := "", TotalDuration := 0, AvgDuration := 0 }
    let wrappedFunc : Job W := { name := name, fn := fn }
    match s.cron.AddFunc spec wrappedFunc with
    | (_, _, some err) => (s, some (.addFailed name err))
    | (cron, entryID, none) =>
      ({ s with
          cron := cron
          tasks := s.tasks.filter (fun t => t.Name != name) ++
            [{ Name := name, Spec := spec, Func := fn, EntryID := entryID, Stats := stats }] },
        none)

/-- `RemoveTask`: the scheduler after the call and the error returned. -/
def TaskScheduler.RemoveTask (s : TaskScheduler W) (name : String) :
    TaskScheduler W × Option SchedulerError :=
  match s.lookup name with
  | none => (s, some (.notFound name))
  | some task =>
    ({ s with
        cron := s.cron.Remove task.EntryID
        tasks := s.tasks.filter (fun t => t.Name != name) },
      none)

/-! ## Statistics -/

/-- `recordSuccess`, with `now` the reading of `time.Now()`. -/
def recordSuccess (stats : TaskStats) (now : Int) (duration : Int) : TaskStats :=
  let stats := { stats with LastRun := now }
  let stats := { stats with ExecuteCount := stats.ExecuteCount + 1 }
  let stats := { stats with TotalDuration := stats.TotalDuration + duration }
  let stats := { stats with AvgDuration := Int.tdiv stats.TotalDuration stats.ExecuteCount }
  { stats with LastError := "" }

/-- `recordError`, with `now` the reading of `time.Now()` and `err` the text
of `err.Error()`. -/
def recordError (stats : TaskStats) (now : Int) (err : String) : TaskStats :=
  let stats := { stats with LastRun := now }
  let stats := { stats with ExecuteCount := stats.ExecuteCount + 1 }
  let stats := { stats with ErrorCount := stats.ErrorCount + 1 }
  { stats with LastError := err }

/-! ## The execution wrapper -/

/-- Clock readings of one firing: `start := time.Now()`, the reading taken by
`time.Since(start)`, and the `time.Now()` read while recording. -/
structure Ticks where
  start : Int
  finish : Int
  now : Int
deriving DecidableEq, Repr

/-- An update through the `*TaskStats` pointer allocated by the registration
that received trigger handle `stats`. -/
def TaskScheduler.onStats (s : TaskScheduler W) (stats : Nat) (f : TaskStats → TaskStats) :
    TaskScheduler W :=
  { s with
      tasks := s.tasks.map (fun t => if t.EntryID = stats then { t with Stats := f t.Stats } else t) }

/-- How a call of the wrapper ends: the scheduler and the outside world after
it, and the panic value that leaves the call, if any. -/
structure Ret (W : Type) where
  sched : TaskScheduler W
  world : W
  escaped : Option String

/-- The wrapper up to its cancellation check: `s.wg.Add(1)`, `defer
s.wg.Done()` and the `select` on `s.ctx.Done()`.  The answer is `false` when
the call has returned there and `true` when the execution goes on, in flight. -/
def wrapEnter (s : TaskScheduler W) : TaskScheduler W × Bool :=
  -- s.wg.Add(1)
  let s := { s with wg := s.wg + 1 }
  if s.cancelled then
    -- case <-s.ctx.Done(): return, running the deferred s.wg.Done()
    ({ s with wg := s.wg - 1 }, false)
  else
    (s, true)

/-- The wrapper from the end of `fn()` on, for an execution in flight: the
recording, the deferred `recover` and the deferred `s.wg.Done()`.  The second
component is the panic value that leaves the call, if any. -/
def wrapLeave (stats : Nat) (tk : Ticks) (o : Outcome) (s : TaskScheduler W) :
    TaskScheduler W × Option String :=
  -- if err := fn(); err != nil { s.recordError(stats, err) } else { s.recordSuccess(...) }
  let body : TaskScheduler W × Option String :=
    match o with
    | .panic r => (s, some r)
    | .err msg => (s.onStats stats (fun st => recordError st tk.now msg), none)
    | .ok => (s.onStats stats (fun st => recordSuccess st tk.now (tk.finish - tk.start)), none)
  -- defer func() { if r := recover(); r != nil { s.recordError(stats, "panic: %v") } }()
  let recovered : TaskScheduler W × Option String :=
    match body with
    | (s1, some r) => (s1.onStats stats (fun st => recordError st tk.now ("panic: " ++ r)), none)
    | (s1, none) => (s1, none)
  -- deferred s.wg.Done()
  ({ recovered.1 with wg := recovered.1.wg - 1 }, recovered.2)

/-- The function returned by `wrapTask(name, fn, stats)`, run from its first
statement to its last with nothing in between. -/
def wrapTask (_name : String) (fn : Work W) (stats : Nat) (tk : Ticks)
    (s : TaskScheduler W) (w : W) : Ret W :=
  match wrapEnter s with
  | (s, false) => { sched := s, world := w, escaped := none }
  | (s, true) =>
    -- start := time.Now(); fn()
    match fn w with
    | (o, w1) =>
      { sched := (wrapLeave stats tk o s).1, world := w1, escaped := (wrapLeave stats tk o s).2 }

/-- The trigger runs the job of the entry armed under `id`. -/
def TaskScheduler.fire (s : TaskScheduler W) (w : W) (id : Nat) (tk : Ticks) : Ret W :=
  match s.cron.entry? id with
  | none => { sched := s, world := w, escaped := none }
  | some e => wrapTask e.Job.name e.Job.fn e.ID tk s w

/-! ## Shutdown -/

/-- When the two things `Stop` waits for happen, in nanoseconds after the call:
`tAck`, when the trigger's `stopCtx.Done()` closes, and `tDone`, when
`s.wg.Wait()` returns and `done` is closed.  `tieAck` and `tieDone` are the
choice a `select` makes when both of its cases become ready at the same
instant (`true` picks the first case). -/
structure Shutdown where
  tAck : Nat
  tDone : Nat
  tieAck : Bool
  tieDone : Bool
deriving DecidableEq, Repr

/-- What a call of `Stop` gives: the scheduler after it, the error returned,
the time after the call at which it returns, and whether the trigger's
acknowledgement was seen. -/
structure StopResult (W : Type) where
  sched : TaskScheduler W
  err : Option SchedulerError
  returnedAt : Nat
  cronStopped : Bool

/-- `Stop(timeout)`.  A timer `time.After(d)` fires `d` after it is made, at
once when `d` is not positive. -/
def TaskScheduler.Stop (s : TaskScheduler W) (timeout : Int) (r : Shutdown) : StopResult W :=
  -- stopCtx := s.cron.Stop(); s.cancel()
  let s := { s with cron := s.cron.Stop, cancelled := true }
  -- select { case <-stopCtx.Done(): ... case <-time.After(timeout): ... }
  let timer1 := timeout.toNat
  let ackFirst := r.tAck < timer1 ∨ (r.tAck = timer1 ∧ r.tieAck = true)
  let t1 := if ackFirst then r.tAck else timer1
  -- select { case <-done: return nil; case <-time.After(timeout): return error }
  let timer2 := t1 + timeout.toNat
  if r.tDone < timer2 ∨ (r.tDone = timer2 ∧ r.tieDone = true) then
    { sched := s, err := none, returnedAt := max t1 r.tDone, cronStopped := ackFirst }
  else
    { sched := s, err := some (.shutdownTimeout timeout), returnedAt := timer2,
      cronStopped := ackFirst }

/-- The end of the first wait of `Stop`: the trigger's acknowledgement or the
timer, whichever comes first. -/
def firstWaitEnd (timeout : Int) (r : Shutdown) : Nat := min r.tAck timeout.toNat

/-! ## Observability -/

/-- The ratio `float64(ErrorCount) / float64(ExecuteCount)` of `Health`, as an
exact rational (the two agree on which side of one half they fall as long as
the counters are below `2^53`). -/
def errorRate (stats : TaskStats) : ℚ := (stats.ErrorCount : ℚ) / (stats.ExecuteCount : ℚ)

/-- The loop of `Health` over the tasks. -/
def healthLoop : List (Task W) → Bool
  | [] => true
  | task :: rest =>
    if task.Stats.ExecuteCount > 0 then
      if errorRate task.Stats > 1 / 2 then false else healthLoop rest
    else healthLoop rest

/-- `Health`. -/
def TaskScheduler.Health (s : TaskScheduler W) : Bool :=
  if s.tasks.length = 0 then false else healthLoop s.tasks

/-- `IsRunning`. -/
def TaskScheduler.IsRunning (s : TaskScheduler W) : Bool :=
  decide (s.cron.Entries.length > 0)

/-! ## Reachable schedulers -/

/-- One event at the scheduler: a call of its public surface; the trigger
firing the entry `id` while the outside world is `w`, the wrapper running
from start to end; or, for a firing that other events interleave with, its
two halves: `enter`, the wrapper of entry `id` runs up to its cancellation
check, and `leave`, the work of an execution in flight has ended with outcome
`o` and the wrapper records it in the statistics `stats` and returns. -/
inductive Call (W : Type) where
  | addTask (name spec : String) (fn : Work W)
  | removeTask (name : String)
  | start
  | stop (timeout : Int) (r : Shutdown)
  | fire (w : W) (id : Nat) (tk : Ticks)
  | enter (id : Nat)
  | leave (stats : Nat) (o : Outcome) (tk : Ticks)

/-- The scheduler after one event. -/
def TaskScheduler.step (s : TaskScheduler W) : Call W → TaskScheduler W
  | .addTask name spec fn => (s.AddTask name spec fn).1
  | .removeTask name => (s.RemoveTask name).1
  | .start => s.Start
  | .stop timeout r => (s.Stop timeout r).sched
  | .fire w id tk => (s.fire w id tk).sched
  | .enter id =>
    match s.cron.entry? id with
    | none => s
    | some _ => (wrapEnter s).1
  | .leave stats o tk => if 0 < s.wg then (wrapLeave stats tk o s).1 else s

/-- The scheduler after a sequence of events. -/
def TaskScheduler.run (s : TaskScheduler W) (cs : List (Call W)) : TaskScheduler W :=
  cs.foldl TaskScheduler.step s

/-- The schedulers that events produce from a freshly created one. -/
inductive Reachable : TaskScheduler W → Prop where
  | init (parser : String → Option String) : Reachable (GetScheduler parser)
  | step {s : TaskScheduler W} (c : Call W) : Reachable s → Reachable (s.step c)

/-- The statistics of a task that has just been registered. -/
def TaskStats.fresh (name spec : String) : TaskStats :=
  { Name := name, Spec := spec, LastRun := 0, NextRun := 0, ExecuteCount := 0,
    ErrorCount := 0, LastError := "", TotalDuration := 0, AvgDuration := 0 }

/-- The text that the wrapper records for a failed firing: `err.Error()` for a
returned error, `fmt.Errorf("panic: %v", r)` for a panic. -/
def Outcome.failureMessage : Outcome → String
  | .ok => ""
  | .err msg => msg
  | .panic r => "panic: " ++ r

/-- What a firing with the given outcome does to the statistics it points to. -/
def recorded (o : Outcome) (tk : Ticks) (st : TaskStats) : TaskStats :=
  match o with
  | .ok => recordSuccess st tk.now (tk.finish - tk.start)
  | .err msg => recordError st tk.now msg
  | .panic r => recordError st tk.now ("panic: " ++ r)

/-- A registered task and the trigger entry made by the same registration. -/
def Linked (t : Task W) (e : Entry W) : Prop :=
  e.ID = t.EntryID ∧ e.Spec = t.Spec ∧ e.Job.name = t.Name ∧ e.Job.fn = t.Func

/-- The shape that every reachable scheduler has: names and trigger handles
identify tasks, handles come from the trigger's counter, the trigger's entries
are those of the registered tasks in the same order. -/
structure WellFormed (s : TaskScheduler W) : Prop where
  names : (s.tasks.map (fun t => t.Name)).Nodup
  ids : (s.tasks.map (fun t => t.EntryID)).Nodup
  bound : ∀ t ∈ s.tasks, t.EntryID ≤ s.cron.nextID
  linked : List.Forall₂ Linked s.tasks s.cron.entries

/-- The accounting invariant of one task: failures never outnumber executions,
and the average is the total divided by the execution count `k` it had at the
last successful firing (`k = 0`: no successful firing yet). -/
def StatsInv (st : TaskStats) : Prop :=
  st.ErrorCount ≤ st.ExecuteCount ∧
    ∃ k : Nat, k ≤ st.ExecuteCount ∧ st.ExecuteCount - k ≤ st.ErrorCount ∧
      (k = 0 → st.TotalDuration = 0 ∧ st.AvgDuration = 0) ∧
      (0 < k → st.AvgDuration = Int.tdiv st.TotalDuration k)

/-- The executions recorded in the statistics of the registered tasks. -/
def TaskScheduler.recordedExecutions (s : TaskScheduler W) : Nat :=
  (s.tasks.map (fun t => t.Stats.ExecuteCount)).sum

/-- One recorded firing: what the task's work did and the clock readings. -/
abbrev Firing := Outcome × Ticks

/-- The statistics after the firings of `h` have been recorded, oldest first. -/
def replay (h : List Firing) (st : TaskStats) : TaskStats :=
  h.foldl (fun st e => recorded e.1 e.2 st) st

/-- The firings of `h` up to and including the last successful one: `h`
without the failed firings at its end, and no firing when none succeeded. -/
def uptoLastSuccess (h : List Firing) : List Firing :=
  h.rdropWhile (fun e => e.1 != Outcome.ok)

/-- The firing that one event records in the statistics behind the trigger
handle `ref`, if it records one there. -/
def TaskScheduler.recordedOn (s : TaskScheduler W) (ref : Nat) : Call W → List Firing
  | .fire w id tk =>
    match s.cron.entry? id with
    | none => []
    | some e => if s.cancelled = false ∧ e.ID = ref then [((e.Job.fn w).1, tk)] else []
  | .leave stats o tk => if 0 < s.wg ∧ stats = ref then [(o, tk)] else []
  | _ => []

/-- The firings that a sequence of events records in the statistics behind the
trigger handle `ref`, oldest first. -/
def TaskScheduler.history (s : TaskScheduler W) (ref : Nat) : List (Call W) → List Firing
  | [] => []
  | c :: cs => s.recordedOn ref c ++ (s.step c).history ref cs

/-! ## Examples -/

/-- A trigger parser that rejects exactly the specification `"bad"`. -/
def exParser : String → Option String :=
  fun spec => if spec = "bad" then some "parse error" else none

/-- A task body over a counter: it succeeds on its first call and fails after. -/
def exWork : Work Nat := fun n => if n = 0 then (.ok, 1) else (.err "boom", n + 1)

/-- A task body that panics. -/
def exPanic : Work Nat := fun n => (.panic "oops", n + 1)

/-- A scheduler with the tasks `"a"` and `"b"` registered. -/
def exSched : TaskScheduler Nat :=
  (GetScheduler exParser).run [.addTask "a" "@every 1s" exWork, .addTask "b" "@daily" exPanic]

/-- Two firings of `"a"` (one succeeds in 10ns, one fails) and one of `"b"`
(it panics) on `exSched`. -/
def exFired : TaskScheduler Nat :=
  exSched.run [.fire 0 1 ⟨100, 110, 111⟩, .fire 1 1 ⟨200, 230, 231⟩, .fire 0 2 ⟨300, 305, 306⟩]

/-- The task `"a"` as it stands in `exFired`. -/
def exTaskA : Task Nat :=
  { Name := "a", Spec := "@every 1s", Func := exWork, EntryID := 1,
    Stats := { Name := "a", Spec := "@every 1s", LastRun := 231, NextRun := 0, ExecuteCount := 2,
               ErrorCount := 1, LastError := "boom", TotalDuration := 10, AvgDuration := 10 } }

/-- The scheduler `exSched` with an execution of `"a"` in flight when `Stop`
is called. -/
def exInFlight : TaskScheduler Nat :=
  exSched.run [.enter 1, .stop 10 ⟨20, 20, true, true⟩]

/-- The scheduler `exFired` after `Stop`. -/
def exStopped : TaskScheduler Nat := (exFired.Stop 10 ⟨0, 0, true, true⟩).sched

end Scheduler

/-!
# The expiring cache of `core/mysql.go`

`sync.Map` is a map from keys to entries: a function from keys to optional
entries here.  `Range` with a callback that deletes the key it is visiting
acts on every key on its own.  Clock readings are integers counting
nanoseconds, and `time.Time.After` is the strict order on them.
-/

namespace Core

/-- A cached value with its expiry time (`type cacheEntry struct`). -/
structure cacheEntry (V : Type) where
  data : V
  expiresAt : Int
deriving DecidableEq, Repr

/-- The cache (`type simpleCache struct`). -/
structure simpleCache (V : Type) where
  items : String → Option (cacheEntry V)
  ttl : Int

variable {V : Type}

/-- `t.After(u)` of `time.Time`. -/
def After (t u : Int) : Bool := decide (u < t)

/-- `newCache`: an empty cache (the sweeping goroutine it starts is `cleanup`). -/
def newCache (ttl : Int) : simpleCache V := { items := fun _ => none, ttl := ttl }

/-- `c.items.Store(key, entry)`. -/
def simpleCache.store (c : simpleCache V) (key : String) (entry : cacheEntry V) : simpleCache V :=
  { c with items := fun k => if k = key then some entry else c.items k }

/-- `c.items.Delete(key)`. -/
def simpleCache.delete (c : simpleCache V) (key : String) : simpleCache V :=
  { c with items := fun k => if k = key then none else c.items k }

/-- `Set`, with `now` the reading of `time.Now()`. -/
def simpleCache.Set (c : simpleCache V) (now : Int) (key : String) (value : V) : simpleCache V :=
  c.store key { data := value, expiresAt := now + c.ttl }

/-- `Get`, with `now` the reading of `time.Now()`: the value found, if any,
and the cache after the call. -/
def simpleCache.Get (c : simpleCache V) (now : Int) (key : String) : Option V × simpleCache V :=
  match c.items key with
  | none => (none, c)
  | some entry =>
    if After now entry.expiresAt then
      (none, c.delete key)
    else
      (some entry.data, c)

/-- `Delete`. -/
def simpleCache.Delete (c : simpleCache V) (key : String) : simpleCache V := c.delete key

/-- `Clear`: `Range` deleting every key it visits. -/
def simpleCache.Clear (c : simpleCache V) : simpleCache V :=
  { c with items := fun k => match c.items k with
      | none => none
      | some _ => none }

/-- One pass of the loop of `cleanup`, with `now` the reading of `time.Now()`:
`Range` deleting every key whose entry has expired. -/
def simpleCache.cleanup (c : simpleCache V) (now : Int) : simpleCache V :=
  { c with items := fun k => match c.items k with
      | none => none
      | some entry => if After now entry.expiresAt then none else some entry }

/-- One operation on a cache. -/
inductive CacheOp (V : Type) where
  | set (now : Int) (key : String) (value : V)
  | get (now : Int) (key : String)
  | delete (key : String)
  | clear
  | cleanup (now : Int)

/-- The cache after one operation. -/
def simpleCache.apply (c : simpleCache V) : CacheOp V → simpleCache V
  | .set now key value => c.Set now key value
  | .get now key => (c.Get now key).2
  | .delete key => c.Delete key
  | .clear => c.Clear
  | .cleanup now => c.cleanup now

/-- The cache after a sequence of operations. -/
def simpleCache.run (c : simpleCache V) (ops : List (CacheOp V)) : simpleCache V :=
  ops.foldl simpleCache.apply c

/-- An operation that is no write to `key` (`Set`, `Delete` of that key, or
`Clear`) and that reads the clock, if it does, at `t` or earlier. -/
def CacheOp.leaves (key : String) (t : Int) : CacheOp V → Prop
  | .set _ k _ => k ≠ key
  | .get now _ => now ≤ t
  | .delete k => k ≠ key
  | .clear => False
  | .cleanup now => now ≤ t

/-- A cache with a time-to-live of 100ns holding `"k"` since time 0. -/
def exCache : simpleCache Nat := (newCache 100).Set 0 "k" 7

/-!
# The users table behind the cache

The `Mysql` methods that read and write table `users`, as far as the cached
list of all users is concerned.  The table is the list of its rows.  Whether
the database runs a statement is an input: `exec` is the error `db.Exec` (or
the query) returns, `none` when the statement runs.
-/

/-- A row of table `users` (`type User struct`). -/
structure User where
  ID : Nat
  Username : String
  Password : String
  EncryptPass : String
  Quota : Int
  Download : Nat
  Upload : Nat
  UseDays : Nat
  ExpiryDate : String
deriving DecidableEq, Repr

/-- What the `Mysql` methods act on: whether `GetDB()` gives a connection, the
rows of table `users`, and the package-level `userCache`. -/
structure Store where
  connected : Bool
  users : List User
  userCache : simpleCache (List User)

/-- The package-level `userCache = newCache(5 * time.Minute)`. -/
def userCache : simpleCache (List User) := newCache (5 * 60 * 1000000000)

/-- `UPDATE users SET ... WHERE ...`: the rows that satisfy `cond` are changed
by `set`. -/
def updateWhere (users : List User) (cond : User → Bool) (set : User → User) : List User :=
  users.map (fun u => if cond u then set u else u)

/-- The condition `id in (ids...)` of `GetData`, the ids being decimal texts. -/
def idIn (ids : List String) (u : User) : Bool := ids.any (fun s => s.toNat? == some u.ID)

/-- `GetData(ids...)`, with `now` the reading of `time.Now()`: the store after
the call, the list returned (the empty list for `nil`) and the error. -/
def Store.GetData (st : Store) (now : Int) (ids : List String) (exec : Option String) :
    Store × List User × Option String :=
  let cacheKey := "all_users"
  -- if len(ids) == 0 { if cached, ok := userCache.Get(cacheKey); ok { return cached, nil } }
  let looked : Option (List User) × simpleCache (List User) :=
    if ids.length = 0 then st.userCache.Get now cacheKey else (none, st.userCache)
  match looked with
  | (some cached, cache) => ({ st with userCache := cache }, cached, none)
  | (none, cache) =>
    let st := { st with userCache := cache }
    if st.connected = false then
      (st, [], some "连接mysql失败")
    else
      match exec with
      | some err => (st, [], some err)
      | none =>
        let userList := if ids.length > 0 then st.users.filter (idIn ids) else st.users
        -- if len(ids) == 0 { userCache.Set(cacheKey, userList) }
        let st :=
          if ids.length = 0 then { st with userCache := st.userCache.Set now cacheKey userList }
          else st
        (st, userList, none)

/-- `CancelExpire(id)`. -/
def Store.CancelExpire (st : Store) (id : Nat) (exec : Option String) : Store × Option String :=
  if st.connected = false then (st, some "can't connect mysql")
  else
    match exec with
    | some err => (st, some err)
    | none =>
      ({ st with
          users := updateWhere st.users (fun u => u.ID == id)
            (fun u => { u with UseDays := 0, ExpiryDate := "" }) }, none)

/-- The duration `addDay, _ := time.ParseDuration(strconv.Itoa(int(24*useDays)) +
"h")` of `SetExpire`, in nanoseconds: the product is taken in 64-bit unsigned
arithmetic and read as a signed number of hours, and a duration outside the
64-bit signed range makes `ParseDuration` fail, which leaves 0. -/
def expireDuration (useDays : Nat) : Int :=
  let product : Nat := (24 * useDays) % 2 ^ 64
  let hours : Int := if product < 2 ^ 63 then (product : Int) else (product : Int) - 2 ^ 64
  let d : Int := hours * 3600000000000
  if - (2 : Int) ^ 63 ≤ d ∧ d ≤ 2 ^ 63 - 1 then d else 0

/-- `SetExpire(id, useDays)`, with `now` the reading of `time.Now()`, `zone`
the error of `time.LoadLocation`, if any, and `format` the rendering of a time
as a date in that zone. -/
def Store.SetExpire (st : Store) (now : Int) (zone : Option String) (format : Int → String)
    (id : Nat) (useDays : Nat) (exec : Option String) : Store × Option String :=
  match zone with
  | some err => (st, some err)
  | none =>
    let addDay : Int := expireDuration useDays
    let expiryDate := format (now + addDay)
    if st.connected = false then (st, some "can't connect mysql")
    else
      match exec with
      | some err => (st, some err)
      | none =>
        ({ st with
            users := updateWhere st.users (fun u => u.ID == id)
              (fun u => { u with UseDays := useDays, ExpiryDate := expiryDate }) }, none)

/-- `SetQuota(id, quota)`. -/
def Store.SetQuota (st : Store) (id : Nat) (quota : Int) (exec : Option String) :
    Store × Option String :=
  if st.connected = false then (st, some "can't connect mysql")
  else
    match exec with
    | some err => (st, some err)
    | none =>
      -- userCache.Clear()
      ({ st with
          users := updateWhere st.users (fun u => u.ID == id) (fun u => { u with Quota := quota })
          userCache := st.userCache.Clear }, none)

/-- `CleanData(id)`. -/
def Store.CleanData (st : Store) (id : Nat) (exec : Option String) : Store × Option String :=
  if st.connected = false then (st, some "can't connect mysql")
  else
    match exec with
    | some err => (st, some err)
    | none =>
      -- userCache.Clear()
      ({ st with
          users := updateWhere st.users (fun u => u.ID == id)
            (fun u => { u with Download := 0, Upload := 0 })
          userCache := st.userCache.Clear }, none)

/-- `CleanDataByName(usernames)`. -/
def Store.CleanDataByName (st : Store) (usernames : List String) (exec : Option String) :
    Store × Option String :=
  if st.connected = false then (st, some "can't connect mysql")
  else
    match exec with
    | some err => (st, some err)
    | none =>
      ({ st with
          users := updateWhere st.users (fun u => usernames.contains u.Username)
            (fun u => { u with Download := 0, Upload := 0 }) }, none)

/-- Two users, the first with an expiry date, a quota and some traffic. -/
def exUsers : List User :=
  [{ ID := 1, Username := "ann", Password := "cA==", EncryptPass := "aa", Quota := 1000,
     Download := 40, Upload := 2, UseDays := 30, ExpiryDate := "2026-12-01" },
   { ID := 2, Username := "bob", Password := "cQ==", EncryptPass := "bb", Quota := -1,
     Download := 0, Upload := 0, UseDays := 0, ExpiryDate := "" }]

/-- A connected store holding `exUsers` whose list of all users was read, and
so cached, at time 0. -/
def exStore : Store :=
  ({ connected := true, users := exUsers, userCache := userCache } : Store).GetData 0 [] none |>.1

end Core

/-!
# The scheduled tasks of `web/controller/data.go`

`ScheduleTask` and `UpdateResetDay` register the monthly reset with the
scheduler.  The key-value store behind `GetValue` and `SetValue` is a function
from keys to optional values and is taken to be available; the task bodies,
which call into `Mysql`, are parameters.
-/

namespace Controller

open Scheduler

variable {W : Type}

/-- The loop of `strings.Fields`: `cur` is the field being read, reversed. -/
def fieldsLoop : List Char → List Char → List String
  | [], cur => if cur.isEmpty then [] else [String.mk cur.reverse]
  | c :: rest, cur =>
    if c.isWhitespace then
      if cur.isEmpty then fieldsLoop rest [] else String.mk cur.reverse :: fieldsLoop rest []
    else fieldsLoop rest (c :: cur)

/-- The fields of a text: its maximal runs of characters that are not white
space (`strings.Fields`, for the white space of ASCII). -/
def fields (s : String) : List String := fieldsLoop s.data []

/-- Modelled from the spec: the parser of the trigger capability as
`cron.WithSeconds()` configures it, "cron syntax with an additional leading
seconds field, plus shortcut forms".  A specification that starts with `@` is
a shortcut form and goes to `descriptor`; any other must have exactly six
fields (second, minute, hour, day of month, month, day of week), which go to
`sixFields`.  Both answer `some msg` to reject and `none` to accept. -/
def secondsParser (descriptor : String → Option String) (sixFields : List String → Option String)
    (spec : String) : Option String :=
  match spec.data with
  | '@' :: _ => descriptor spec
  | _ =>
    if (fields spec).length = 6 then sixFields (fields spec)
    else
      some ("expected exactly 6 fields, found " ++ toString (fields spec).length)

/-- The value of a run of decimal digits read from the left, `acc` being the
value read so far; `none` at a character that is no digit. -/
def digitsValue : List Char → Nat → Option Nat
  | [], acc => some acc
  | c :: rest, acc => if c.isDigit then digitsValue rest (acc * 10 + (c.toNat - 48)) else none

/-- `strconv.Atoi` with its error dropped, as its callers here do: the number
written by an optional sign and decimal digits, and 0 for any other text. -/
def Atoi (s : String) : Int :=
  match s.data with
  | [] => 0
  | '-' :: ds => if ds.isEmpty then 0 else (digitsValue ds 0).elim 0 (fun n => - (n : Int))
  | '+' :: ds => if ds.isEmpty then 0 else (digitsValue ds 0).elim 0 (fun n => (n : Int))
  | ds => (digitsValue ds 0).elim 0 (fun n => (n : Int))

/-- `core.GetValue` with its error dropped: the empty text for a missing key. -/
def GetValue (values : String → Option String) (key : String) : String := (values key).getD ""

/-- `core.SetValue`. -/
def SetValue (values : String → Option String) (key value : String) : String → Option String :=
  fun k => if k = key then some value else values k

/-- The schedule text `fmt.Sprintf("0 0 %d * *", day)`. -/
def monthlySpec (day : Int) : String := "0 0 " ++ toString day ++ " * *"

/-- What the controller works on: the scheduler singleton and the key-value
store. -/
structure App (W : Type) where
  scheduler : TaskScheduler W
  values : String → Option String

/-- `ScheduleTask`, with the bodies of the two tasks. -/
def ScheduleTask (dailyExpire monthlyReset : Work W) (app : App W) : App W :=
  -- scheduler.AddTask("daily_expire_check", "@daily", ...)
  let scheduler := (app.scheduler.AddTask "daily_expire_check" "@daily" dailyExpire).1
  let dayStr := GetValue app.values "reset_day"
  let values := if dayStr = "" then SetValue app.values "reset_day" "1" else app.values
  let dayStr := if dayStr = "" then "1" else dayStr
  let day := Atoi dayStr
  let scheduler :=
    if day ≠ 0 then (scheduler.AddTask "monthly_reset" (monthlySpec day) monthlyReset).1
    else scheduler
  { scheduler := scheduler.Start, values := values }

/-- `UpdateResetDay(day)`, with the body of the monthly task: the state after
the call and the `Msg` of the response. -/
def UpdateResetDay (monthlyReset : Work W) (day : Nat) (app : App W) : App W × String :=
  if day > 31 then (app, toString day ++ "为非正常日期")
  else
    let oldDay := Atoi (GetValue app.values "reset_day")
    if (day : Int) = oldDay then (app, "success")
    else
      -- scheduler.RemoveTask("monthly_reset")
      let scheduler := (app.scheduler.RemoveTask "monthly_reset").1
      let scheduler :=
        if day ≠ 0 then (scheduler.AddTask "monthly_reset" (monthlySpec day) monthlyReset).1
        else scheduler
      ({ scheduler := scheduler, values := SetValue app.values "reset_day" (toString day) },
        "success")

/-- A trigger with a seconds field that accepts every shortcut form and every
six fields. -/
def exSecondsParser : String → Option String := secondsParser (fun _ => none) (fun _ => none)

/-- The application at start-up, with the reset day stored as `day`. -/
def exApp (day : Nat) : App Nat :=
  { scheduler := GetScheduler exSecondsParser,
    values := fun k => if k = "reset_day" then some (toString day) else none }

end Controller

namespace Scheduler

variable {W : Type}

/-! ## Registration -/

theorem lookup_eq_none_iff (s : TaskScheduler W) (name : String) :
    s.lookup name = none ↔ ∀ t ∈ s.tasks, t.Name ≠ name := by
  simp [TaskScheduler.lookup, List.find?_eq_none]

theorem filter_name_of_lookup_none (s : TaskScheduler W) (name : String)
    (h : s.lookup name = none) : s.tasks.filter (fun t => t.Name != name) = s.tasks := by
  rw [List.filter_eq_self]
  intro t ht
  have := (lookup_eq_none_iff s name).1 h t ht
  simpa using this

theorem AddTask_registered (s : TaskScheduler W) (name spec : String) (fn : Work W)
    (h : (s.lookup name).isSome) : s.AddTask name spec fn = (s, some (.alreadyExists name)) := by
  simp [TaskScheduler.AddTask, h]

theorem AddTask_rejected (s : TaskScheduler W) (name spec : String) (fn : Work W) (msg : String)
    (hnew : s.lookup name = none) (h : s.cron.parser spec = some msg) :
    s.AddTask name spec fn = (s, some (.addFailed name msg)) := by
  simp [TaskScheduler.AddTask, hnew, Cron.AddFunc, h]

/-- C1: a call of `AddTask` with a name that is already registered, or with a
schedule specification that the trigger rejects, returns an error and leaves
the scheduler exactly as it was: the same registry with the same statistics
and the same trigger entries. -/
theorem AddTask_error_leaves_state (s : TaskScheduler W) (name spec : String) (fn : Work W)
    (h : (s.lookup name).isSome ∨ (s.cron.parser spec).isSome) :
    (s.AddTask name spec fn).2.isSome ∧
      (s.AddTask name spec fn).1 = s ∧
      (∀ n, (s.AddTask name spec fn).1.lookup n = s.lookup n) ∧
      (s.AddTask name spec fn).1.tasks.map (fun t => t.Stats) = s.tasks.map (fun t => t.Stats) ∧
      (s.AddTask name spec fn).1.cron.Entries = s.cron.Entries ∧
      ((s.lookup name).isSome → (s.AddTask name spec fn).2 = some (.alreadyExists name)) ∧
      (∀ msg, s.lookup name = none → s.cron.parser spec = some msg →
        (s.AddTask name spec fn).2 = some (.addFailed name msg)) := by
  have hkey : (s.AddTask name spec fn).2.isSome ∧ (s.AddTask name spec fn).1 = s := by
    by_cases hdup : (s.lookup name).isSome
    · simp [AddTask_registered s name spec fn hdup]
    · obtain ⟨msg, hmsg⟩ := Option.isSome_iff_exists.1 (h.resolve_left hdup)
      simp [AddTask_rejected s name spec fn msg (by simpa using hdup) hmsg]
  refine ⟨hkey.1, hkey.2, fun n => by rw [hkey.2], by rw [hkey.2], by rw [hkey.2], ?_, ?_⟩
  · intro hdup
    rw [AddTask_registered s name spec fn hdup]
  · intro msg hnew hmsg
    rw [AddTask_rejected s name spec fn msg hnew hmsg]

theorem AddTask_error_leaves_state_witness :
    ((exSched.lookup "a").isSome ∨ (exSched.cron.parser "@daily").isSome) ∧
      (exSched.AddTask "a" "@daily" exWork).2.isSome ∧
      (exSched.AddTask "a" "@daily" exWork).1 = exSched :=
  ⟨Or.inl (by decide),
    (AddTask_error_leaves_state exSched "a" "@daily" exWork (Or.inl (by decide))).1,
    (AddTask_error_leaves_state exSched "a" "@daily" exWork (Or.inl (by decide))).2.1⟩

/-! ## The wrapper as one update -/

theorem wrapEnter_cancelled (s : TaskScheduler W) (h : s.cancelled = true) :
    wrapEnter s = (s, false) := by
  cases s
  simp_all [wrapEnter]

theorem wrapEnter_running (s : TaskScheduler W) (h : s.cancelled = false) :
    wrapEnter s = ({ s with wg := s.wg + 1 }, true) := by
  simp [wrapEnter, h]

theorem wrapLeave_sched (stats : Nat) (tk : Ticks) (o : Outcome) (s : TaskScheduler W) :
    wrapLeave stats tk o s =
      ({ s.onStats stats (recorded o tk) with wg := s.wg - 1 }, none) := by
  cases o <;> simp [wrapLeave, TaskScheduler.onStats, recorded]

theorem wrapTask_cancelled (name : String) (fn : Work W) (stats : Nat) (tk : Ticks)
    (s : TaskScheduler W) (w : W) (h : s.cancelled = true) :
    wrapTask name fn stats tk s w = { sched := s, world := w, escaped := none } := by
  simp [wrapTask, wrapEnter_cancelled s h]

theorem wrapTask_running (name : String) (fn : Work W) (stats : Nat) (tk : Ticks)
    (s : TaskScheduler W) (w : W) (h : s.cancelled = false) :
    wrapTask name fn stats tk s w =
      { sched := s.onStats stats (recorded (fn w).1 tk), world := (fn w).2, escaped := none } := by
  cases s
  simp [wrapTask, wrapEnter_running _ h, wrapLeave_sched, TaskScheduler.onStats]

theorem wrapTask_sched (name : String) (fn : Work W) (stats : Nat) (tk : Ticks)
    (s : TaskScheduler W) (w : W) :
    (wrapTask name fn stats tk s w).sched =
      if s.cancelled then s else s.onStats stats (recorded (fn w).1 tk) := by
  cases h : s.cancelled
  · simp [wrapTask_running name fn stats tk s w h]
  · simp [wrapTask_cancelled name fn stats tk s w h]

/-- A firing either changes nothing or updates the statistics behind one handle. -/
theorem fire_sched (s : TaskScheduler W) (w : W) (id : Nat) (tk : Ticks) :
    (s.fire w id tk).sched = s ∨
      ∃ (ref : Nat) (o : Outcome), (s.fire w id tk).sched = s.onStats ref (recorded o tk) := by
  unfold TaskScheduler.fire
  cases s.cron.entry? id with
  | none => exact Or.inl rfl
  | some e =>
    simp only [wrapTask_sched]
    cases s.cancelled
    · exact Or.inr ⟨e.ID, (e.Job.fn w).1, by simp⟩
    · exact Or.inl (by simp)

/-! ## Well-formedness of reachable schedulers -/

theorem forall₂_filter {α β : Type} {R : α → β → Prop} (p : α → Bool) (q : β → Bool)
    {l₁ : List α} {l₂ : List β} (h : List.Forall₂ R l₁ l₂)
    (hpq : ∀ a ∈ l₁, ∀ b, R a b → p a = q b) :
    List.Forall₂ R (l₁.filter p) (l₂.filter q) := by
  induction h with
  | nil => exact List.Forall₂.nil
  | @cons a b l₁ l₂ hab _ ih =>
    have hrest := ih (fun a ha b hR => hpq a (List.mem_cons_of_mem _ ha) b hR)
    have hhead : p a = q b := hpq a (List.mem_cons_self _ _) b hab
    cases hq : q b
    · have hp : p a = false := by rw [hhead, hq]
      simpa [List.filter_cons, hp, hq] using hrest
    · have hp : p a = true := by rw [hhead, hq]
      simpa [List.filter_cons, hp, hq] using List.Forall₂.cons hab hrest

theorem mem_of_lookup {s : TaskScheduler W} {name : String} {task : Task W}
    (h : s.lookup name = some task) : task ∈ s.tasks ∧ task.Name = name := by
  unfold TaskScheduler.lookup at h
  exact ⟨List.mem_of_find?_eq_some h, by simpa using List.find?_some h⟩

theorem wellFormed_init (parser : String → Option String) :
    WellFormed (GetScheduler parser : TaskScheduler W) := by
  constructor <;> simp [GetScheduler, Cron.new]

theorem wellFormed_onStats {s : TaskScheduler W} (h : WellFormed s) (ref : Nat)
    (f : TaskStats → TaskStats) : WellFormed (s.onStats ref f) := by
  have hName : ∀ t : Task W,
      (if t.EntryID = ref then { t with Stats := f t.Stats } else t).Name = t.Name := by
    intro t; split <;> rfl
  have hID : ∀ t : Task W,
      (if t.EntryID = ref then { t with Stats := f t.Stats } else t).EntryID = t.EntryID := by
    intro t; split <;> rfl
  constructor
  · simpa [TaskScheduler.onStats, List.map_map, Function.comp_def, hName] using h.names
  · simpa [TaskScheduler.onStats, List.map_map, Function.comp_def, hID] using h.ids
  · intro t ht
    simp only [TaskScheduler.onStats, List.mem_map] at ht
    obtain ⟨t0, ht0, rfl⟩ := ht
    rw [hID]
    exact h.bound t0 ht0
  · simp only [TaskScheduler.onStats, List.forall₂_map_left_iff]
    refine h.linked.imp ?_
    intro t e hte
    unfold Linked at hte ⊢
    split <;> exact hte

/-- A successful `AddTask`, spelled out. -/
theorem AddTask_ok (s : TaskScheduler W) (name spec : String) (fn : Work W)
    (hnew : s.lookup name = none) (hacc : s.cron.parser spec = none) :
    s.AddTask name spec fn =
      ({ s with
          cron := { s.cron with
            nextID := s.cron.nextID + 1
            entries := s.cron.entries ++
              [{ ID := s.cron.nextID + 1, Spec := spec, Job := { name := name, fn := fn } }] }
          tasks := s.tasks ++
            [{ Name := name, Spec := spec, Func := fn, EntryID := s.cron.nextID + 1,
               Stats := TaskStats.fresh name spec }] }, none) := by
  simp [TaskScheduler.AddTask, hnew, Cron.AddFunc, hacc, filter_name_of_lookup_none s name hnew,
    TaskStats.fresh]

/-- Every call of `AddTask` either fails and changes nothing or is the
registration spelled out in `AddTask_ok`. -/
theorem AddTask_cases (s : TaskScheduler W) (name spec : String) (fn : Work W) :
    (s.AddTask name spec fn).1 = s ∨ (s.lookup name = none ∧ s.cron.parser spec = none) := by
  by_cases hdup : (s.lookup name).isSome
  · exact Or.inl (by rw [AddTask_registered s name spec fn hdup])
  · have hnew : s.lookup name = none := by simpa using hdup
    cases hrej : s.cron.parser spec with
    | some msg => exact Or.inl (by rw [AddTask_rejected s name spec fn msg hnew hrej])
    | none => exact Or.inr ⟨hnew, rfl⟩

theorem wellFormed_AddTask {s : TaskScheduler W} (h : WellFormed s) (name spec : String)
    (fn : Work W) : WellFormed (s.AddTask name spec fn).1 := by
  rcases AddTask_cases s name spec fn with hsame | ⟨hnew, hacc⟩
  · rw [hsame]; exact h
  · rw [AddTask_ok s name spec fn hnew hacc]
    have hfresh := (lookup_eq_none_iff s name).1 hnew
    constructor
    · simp only [List.map_append, List.map_cons, List.map_nil]
      refine List.Nodup.append h.names (List.nodup_singleton _) ?_
      simp only [List.disjoint_singleton, List.mem_map, not_exists, not_and]
      exact fun t ht => hfresh t ht
    · simp only [List.map_append, List.map_cons, List.map_nil]
      refine List.Nodup.append h.ids (List.nodup_singleton _) ?_
      simp only [List.disjoint_singleton, List.mem_map, not_exists, not_and]
      intro t ht heq
      have := h.bound t ht
      omega
    · intro t ht
      simp only [List.mem_append, List.mem_singleton] at ht
      rcases ht with ht | rfl
      · exact Nat.le_succ_of_le (h.bound t ht)
      · exact Nat.le_refl _
    · exact List.rel_append h.linked
        (List.Forall₂.cons ⟨rfl, rfl, rfl, rfl⟩ List.Forall₂.nil)
  
/-- A successful `RemoveTask`, spelled out. -/
theorem RemoveTask_ok (s : TaskScheduler W) (name : String) (task : Task W)
    (h : s.lookup name = some task) :
    s.RemoveTask name =
      ({ s with
          cron := { s.cron with entries := s.cron.entries.filter (fun e => e.ID != task.EntryID) }
          tasks := s.tasks.filter (fun t => t.Name != name) }, none) := by
  simp [TaskScheduler.RemoveTask, h, Cron.Remove]

theorem RemoveTask_absent (s : TaskScheduler W) (name : String) (h : s.lookup name = none) :
    s.RemoveTask name = (s, some (.notFound name)) := by
  simp [TaskScheduler.RemoveTask, h]

/-- In a well-formed scheduler a task has the name of `task` exactly when it
has the trigger handle of `task`. -/
theorem name_eq_iff_id_eq {s : TaskScheduler W} (h : WellFormed s) {task t : Task W}
    (htask : task ∈ s.tasks) (ht : t ∈ s.tasks) :
    t.Name = task.Name ↔ t.EntryID = task.EntryID := by
  constructor
  · intro hn
    rw [List.inj_on_of_nodup_map h.names ht htask hn]
  · intro hi
    rw [List.inj_on_of_nodup_map h.ids ht htask hi]

theorem wellFormed_RemoveTask {s : TaskScheduler W} (h : WellFormed s) (name : String) :
    WellFormed (s.RemoveTask name).1 := by
  cases hl : s.lookup name with
  | none => rw [RemoveTask_absent s name hl]; exact h
  | some task =>
    rw [RemoveTask_ok s name task hl]
    obtain ⟨hmem, hname⟩ := mem_of_lookup hl
    constructor
    · exact (List.filter_sublist _).map _ |>.nodup h.names
    · exact (List.filter_sublist _).map _ |>.nodup h.ids
    · intro t ht
      exact h.bound t (List.mem_of_mem_filter ht)
    · refine forall₂_filter _ _ h.linked ?_
      intro t ht e hte
      have hiff := name_eq_iff_id_eq h hmem ht
      rw [hname] at hiff
      have hid : e.ID = t.EntryID := hte.1
      by_cases hn : t.Name = name
      · have := hiff.1 hn
        simp [hn, hid, this]
      · have hne : t.EntryID ≠ task.EntryID := fun hi => hn (hiff.2 hi)
        have h1 : (t.Name != name) = true := by simpa using hn
        have h2 : (e.ID != task.EntryID) = true := by simpa [hid] using hne
        rw [h1, h2]
  
/-- What `Stop` does to the scheduler, whatever it returns. -/
theorem Stop_sched (s : TaskScheduler W) (timeout : Int) (r : Shutdown) :
    (s.Stop timeout r).sched = { s with cron := s.cron.Stop, cancelled := true } := by
  simp only [TaskScheduler.Stop]
  split_ifs <;> rfl

/-- The first half of a firing only moves the in-flight counter. -/
theorem step_enter (s : TaskScheduler W) (id : Nat) :
    s.step (.enter id) =
      { s with wg := if (s.cron.entry? id).isSome ∧ s.cancelled = false then s.wg + 1 else s.wg } := by
  simp only [TaskScheduler.step]
  cases s.cron.entry? id with
  | none => simp
  | some e =>
    cases hc : s.cancelled
    · simp [wrapEnter_running s hc, hc]
    · cases s
      simp_all [wrapEnter_cancelled]

/-- The second half of a firing records the outcome and leaves. -/
theorem step_leave (s : TaskScheduler W) (stats : Nat) (o : Outcome) (tk : Ticks) :
    s.step (.leave stats o tk) =
      if 0 < s.wg then { s.onStats stats (recorded o tk) with wg := s.wg - 1 } else s := by
  simp only [TaskScheduler.step, wrapLeave_sched]

theorem wellFormed_step {s : TaskScheduler W} (h : WellFormed s) (c : Call W) :
    WellFormed (s.step c) := by
  cases c with
  | addTask name spec fn => exact wellFormed_AddTask h name spec fn
  | removeTask name => exact wellFormed_RemoveTask h name
  | start =>
    simp only [TaskScheduler.step, TaskScheduler.Start]
    split
    · exact ⟨h.names, h.ids, h.bound, h.linked⟩
    · exact h
  | stop timeout r =>
    simp only [TaskScheduler.step, Stop_sched]
    exact ⟨h.names, h.ids, h.bound, h.linked⟩
  | fire w id tk =>
    simp only [TaskScheduler.step]
    rcases fire_sched s w id tk with hs | ⟨ref, o, hs⟩
    · rw [hs]; exact h
    · rw [hs]; exact wellFormed_onStats h ref _
  | enter id =>
    rw [step_enter]
    exact ⟨h.names, h.ids, h.bound, h.linked⟩
  | leave stats o tk =>
    rw [step_leave]
    split
    · have := wellFormed_onStats h stats (recorded o tk)
      exact ⟨this.names, this.ids, this.bound, this.linked⟩
    · exact h

theorem Reachable.wellFormed {s : TaskScheduler W} (h : Reachable s) : WellFormed s := by
  induction h with
  | init parser => exact wellFormed_init parser
  | step c _ ih => exact wellFormed_step ih c

/-! ## Removal -/

theorem find?_filter_of_imp {α : Type} (p q : α → Bool) (l : List α)
    (h : ∀ a ∈ l, p a = true → q a = true) : (l.filter q).find? p = l.find? p := by
  induction l with
  | nil => rfl
  | cons a l ih =>
    have ih := ih (fun b hb => h b (List.mem_cons_of_mem _ hb))
    cases hq : q a
    · have hp : p a = false := by
        cases hp : p a
        · rfl
        · rw [h a (List.mem_cons_self _ _) hp] at hq
          exact absurd hq (by simp)
      simp [List.filter_cons, hq, List.find?_cons, hp, ih]
    · cases hp : p a <;> simp [List.filter_cons, hq, List.find?_cons, hp, ih]

theorem find?_filter_none {α : Type} (p q : α → Bool) (l : List α)
    (h : ∀ a ∈ l, p a = true → q a = false) : (l.filter q).find? p = none := by
  rw [List.find?_eq_none]
  intro a ha hp
  rw [List.mem_filter] at ha
  rw [h a ha.1 hp] at ha
  exact absurd ha.2 (by simp)

/-- In a well-formed scheduler every registered task is armed in the trigger. -/
theorem entry_of_task {s : TaskScheduler W} (h : WellFormed s) {t : Task W} (ht : t ∈ s.tasks) :
    (s.cron.entry? t.EntryID).isSome := by
  have key : ∀ (ts : List (Task W)) (es : List (Entry W)), List.Forall₂ Linked ts es →
      t ∈ ts → ∃ e ∈ es, e.ID = t.EntryID := by
    intro ts es hl
    induction hl with
    | nil => intro hm; exact absurd hm (List.not_mem_nil _)
    | @cons a b l₁ l₂ hab _ ih =>
      intro hm
      rcases List.mem_cons.1 hm with rfl | hm
      · exact ⟨b, List.mem_cons_self _ _, hab.1⟩
      · obtain ⟨e, he, hid⟩ := ih hm
        exact ⟨e, List.mem_cons_of_mem _ he, hid⟩
  obtain ⟨e, he, hid⟩ := key _ _ h.linked ht
  simp only [Cron.entry?, List.find?_isSome]
  exact ⟨e, he, by simpa using hid⟩

/-- C2: `RemoveTask(name)` on a reachable scheduler.  When `name` is not
registered it returns the not-found error and the scheduler is unchanged.
Otherwise it returns no error, no task is registered under `name` any more
(its statistics go with it), the trigger has no entry under that task's
handle, and every other name still maps to the same task with the same
statistics and the same, still armed, trigger entry; nothing else in the
scheduler changes. -/
theorem RemoveTask_spec (s : TaskScheduler W) (hs : Reachable s) (name : String) :
    (s.lookup name = none → s.RemoveTask name = (s, some (.notFound name))) ∧
    (∀ task, s.lookup name = some task →
      (s.RemoveTask name).2 = none ∧
      (s.RemoveTask name).1.lookup name = none ∧
      (∀ t ∈ (s.RemoveTask name).1.tasks, t.Name ≠ name) ∧
      (s.RemoveTask name).1.cron.entry? task.EntryID = none ∧
      (∀ n, n ≠ name → (s.RemoveTask name).1.lookup n = s.lookup n) ∧
      (∀ n other, n ≠ name → s.lookup n = some other →
        (s.RemoveTask name).1.cron.entry? other.EntryID = s.cron.entry? other.EntryID ∧
        ((s.RemoveTask name).1.cron.entry? other.EntryID).isSome) ∧
      (s.RemoveTask name).1.cancelled = s.cancelled ∧
      (s.RemoveTask name).1.wg = s.wg ∧
      (s.RemoveTask name).1.cron.nextID = s.cron.nextID ∧
      (s.RemoveTask name).1.cron.running = s.cron.running) := by
  have hwf := hs.wellFormed
  refine ⟨RemoveTask_absent s name, ?_⟩
  intro task hl
  obtain ⟨hmem, hname⟩ := mem_of_lookup hl
  rw [RemoveTask_ok s name task hl]
  have hother : ∀ n other, n ≠ name → s.lookup n = some other →
      (List.filter (fun e => e.ID != task.EntryID) s.cron.entries).find?
        (fun e => e.ID == other.EntryID) = s.cron.entry? other.EntryID := by
    intro n other hn ho
    obtain ⟨homem, honame⟩ := mem_of_lookup ho
    have hne : other.EntryID ≠ task.EntryID := by
      intro hi
      have := (name_eq_iff_id_eq hwf hmem homem).2 hi
      exact hn (by rw [← honame, this, hname])
    unfold Cron.entry?
    apply find?_filter_of_imp
    intro e _ he
    have he : e.ID = other.EntryID := by simpa using he
    simpa [he] using hne
  refine ⟨rfl, ?_, ?_, ?_, ?_, ?_, rfl, rfl, rfl, rfl⟩
  · simp only [TaskScheduler.lookup]
    apply find?_filter_none
    intro t _ ht
    simpa using ht
  · intro t ht
    have := (List.mem_filter.1 ht).2
    simpa using this
  · simp only [Cron.entry?]
    apply find?_filter_none
    intro e _ he
    simpa using he
  · intro n hn
    simp only [TaskScheduler.lookup]
    apply find?_filter_of_imp
    intro t _ ht
    have ht : t.Name = n := by simpa using ht
    simpa [ht] using hn
  · intro n other hn ho
    have h1 := hother n other hn ho
    refine ⟨h1, ?_⟩
    show ((List.filter (fun e => e.ID != task.EntryID) s.cron.entries).find?
        (fun e => e.ID == other.EntryID)).isSome = true
    rw [h1]
    exact entry_of_task hwf (mem_of_lookup ho).1

theorem Reachable.run {s : TaskScheduler W} (h : Reachable s) (cs : List (Call W)) :
    Reachable (s.run cs) := by
  induction cs generalizing s with
  | nil => exact h
  | cons c cs ih => exact ih (Reachable.step c h)

theorem exSched_reachable : Reachable exSched :=
  (Reachable.init exParser).run _

theorem RemoveTask_spec_witness :
    Reachable exSched ∧ exSched.lookup "zzz" = none ∧
      exSched.RemoveTask "zzz" = (exSched, some (.notFound "zzz")) ∧
      (exSched.RemoveTask "a").1.lookup "a" = none :=
  ⟨exSched_reachable, rfl,
    (RemoveTask_spec exSched exSched_reachable "zzz").1 rfl,
    ((RemoveTask_spec exSched exSched_reachable "a").2
      { Name := "a", Spec := "@every 1s", Func := exWork, EntryID := 1,
        Stats := TaskStats.fresh "a" "@every 1s" } rfl).2.1⟩

/-! ## Accounting invariants -/

theorem statsInv_fresh (name spec : String) : StatsInv (TaskStats.fresh name spec) :=
  ⟨Nat.le_refl _, 0, Nat.le_refl _, Nat.le_refl _, fun _ => ⟨rfl, rfl⟩,
    fun h => absurd h (Nat.lt_irrefl 0)⟩

theorem statsInv_recordSuccess (st : TaskStats) (now d : Int) (h : StatsInv st) :
    StatsInv (recordSuccess st now d) := by
  obtain ⟨hle, _⟩ := h
  refine ⟨Nat.le_succ_of_le hle, st.ExecuteCount + 1, Nat.le_refl _, ?_, ?_, ?_⟩
  · simp [recordSuccess]
  · intro h0; exact absurd h0 (Nat.succ_ne_zero _)
  · intro _; rfl

theorem statsInv_recordError (st : TaskStats) (now : Int) (msg : String) (h : StatsInv st) :
    StatsInv (recordError st now msg) := by
  obtain ⟨hle, k, hk, hsince, hzero, hpos⟩ := h
  refine ⟨Nat.succ_le_succ hle, k, Nat.le_succ_of_le hk, ?_, hzero, hpos⟩
  show st.ExecuteCount + 1 - k ≤ st.ErrorCount + 1
  omega

theorem statsInv_recorded (o : Outcome) (tk : Ticks) (st : TaskStats) (h : StatsInv st) :
    StatsInv (recorded o tk st) := by
  cases o with
  | ok => exact statsInv_recordSuccess st _ _ h
  | err msg => exact statsInv_recordError st _ _ h
  | panic r => exact statsInv_recordError st _ _ h

theorem RemoveTask_tasks_subset (s : TaskScheduler W) (name : String) :
    ∀ t ∈ (s.RemoveTask name).1.tasks, t ∈ s.tasks := by
  intro t ht
  cases hl : s.lookup name with
  | none => rw [RemoveTask_absent s name hl] at ht; exact ht
  | some task =>
    rw [RemoveTask_ok s name task hl] at ht
    exact List.mem_of_mem_filter ht

/-- A task found after an `AddTask` was there before or is the new one. -/
theorem AddTask_tasks (s : TaskScheduler W) (name spec : String) (fn : Work W) :
    ∀ t ∈ (s.AddTask name spec fn).1.tasks,
      t ∈ s.tasks ∨ (t.Name = name ∧ t.Stats = TaskStats.fresh name spec) := by
  intro t ht
  rcases AddTask_cases s name spec fn with hsame | ⟨hnew, hacc⟩
  · rw [hsame] at ht; exact Or.inl ht
  · rw [AddTask_ok s name spec fn hnew hacc] at ht
    rcases List.mem_append.1 ht with ht | ht
    · exact Or.inl ht
    · rw [List.mem_singleton] at ht
      subst ht
      exact Or.inr ⟨rfl, rfl⟩

theorem statsInv_step {s : TaskScheduler W} (h : ∀ t ∈ s.tasks, StatsInv t.Stats) (c : Call W) :
    ∀ t ∈ (s.step c).tasks, StatsInv t.Stats := by
  intro t ht
  cases c with
  | addTask name spec fn =>
    rcases AddTask_tasks s name spec fn t ht with hold | ⟨_, hst⟩
    · exact h t hold
    · rw [hst]; exact statsInv_fresh name spec
  | removeTask name => exact h t (RemoveTask_tasks_subset s name t ht)
  | start =>
    simp only [TaskScheduler.step, TaskScheduler.Start] at ht
    split at ht <;> exact h t ht
  | stop timeout r =>
    simp only [TaskScheduler.step, Stop_sched] at ht
    exact h t ht
  | fire w id tk =>
    simp only [TaskScheduler.step] at ht
    rcases fire_sched s w id tk with hs | ⟨ref, o, hs⟩
    · rw [hs] at ht; exact h t ht
    · rw [hs] at ht
      simp only [TaskScheduler.onStats, List.mem_map] at ht
      obtain ⟨t0, ht0, rfl⟩ := ht
      split
      · exact statsInv_recorded o tk _ (h t0 ht0)
      · exact h t0 ht0
  | enter id =>
    rw [step_enter] at ht
    exact h t ht
  | leave stats o tk =>
    rw [step_leave] at ht
    split at ht
    · simp only [TaskScheduler.onStats, List.mem_map] at ht
      obtain ⟨t0, ht0, rfl⟩ := ht
      split
      · exact statsInv_recorded o tk _ (h t0 ht0)
      · exact h t0 ht0
    · exact h t ht

theorem Reachable.statsInv {s : TaskScheduler W} (h : Reachable s) :
    ∀ t ∈ s.tasks, StatsInv t.Stats := by
  induction h with
  | init parser => intro t ht; exact absurd ht (List.not_mem_nil _)
  | step c _ ih => exact statsInv_step ih c

/-- C3: in every scheduler reachable from a fresh one by registrations,
removals, starts, stops and firings of any outcome (success, returned error,
panic, or skipped after cancellation), every registered task has
`ErrorCount ≤ ExecuteCount`. -/
theorem errorCount_le_executeCount (s : TaskScheduler W) (hs : Reachable s) (t : Task W)
    (ht : t ∈ s.tasks) : t.Stats.ErrorCount ≤ t.Stats.ExecuteCount :=
  (hs.statsInv t ht).1

theorem exFired_reachable : Reachable exFired :=
  exSched_reachable.run _

theorem exTaskA_mem : exTaskA ∈ exFired.tasks :=
  List.mem_cons_self _ _

theorem errorCount_le_executeCount_witness :
    Reachable exFired ∧ exTaskA ∈ exFired.tasks ∧ exTaskA.Stats.ErrorCount = 1 ∧
      exTaskA.Stats.ErrorCount ≤ exTaskA.Stats.ExecuteCount :=
  ⟨exFired_reachable, exTaskA_mem, rfl,
    errorCount_le_executeCount exFired exFired_reachable exTaskA exTaskA_mem⟩

/-! ## One firing -/

/-- Task by task, what a firing that is not skipped does to the registry. -/
theorem wrapTask_tasks (name : String) (fn : Work W) (stats : Nat) (tk : Ticks)
    (s : TaskScheduler W) (w : W) (hrun : s.cancelled = false) :
    List.Forall₂
      (fun t t' => (t.EntryID ≠ stats → t' = t) ∧
        (t.EntryID = stats → t' = { t with Stats := recorded (fn w).1 tk t.Stats }))
      s.tasks (wrapTask name fn stats tk s w).sched.tasks := by
  rw [wrapTask_running name fn stats tk s w hrun]
  simp only [TaskScheduler.onStats, List.forall₂_map_right_iff, List.forall₂_same]
  intro t _
  by_cases h : t.EntryID = stats
  · simp [h]
  · simp [h]

/-- C4: a firing that is not skipped and whose work returns success after the
elapsed time `tk.finish - tk.start` returns normally and, in the statistics it
points to, adds one to `ExecuteCount`, adds the elapsed time to
`TotalDuration`, sets `AvgDuration` to the new total divided (integer
division) by the new count, empties `LastError`, sets `LastRun` to the clock
reading and leaves `ErrorCount` alone; every other task is untouched. -/
theorem wrapTask_success (name : String) (fn : Work W) (stats : Nat) (tk : Ticks)
    (s : TaskScheduler W) (w : W) (hrun : s.cancelled = false) (hok : (fn w).1 = .ok) :
    (wrapTask name fn stats tk s w).escaped = none ∧
    (wrapTask name fn stats tk s w).world = (fn w).2 ∧
    (wrapTask name fn stats tk s w).sched.wg = s.wg ∧
    (wrapTask name fn stats tk s w).sched.cron = s.cron ∧
    List.Forall₂
      (fun t t' =>
        t'.Name = t.Name ∧ t'.Spec = t.Spec ∧ t'.Func = t.Func ∧ t'.EntryID = t.EntryID ∧
        (t.EntryID ≠ stats → t' = t) ∧
        (t.EntryID = stats →
          t'.Stats.ExecuteCount = t.Stats.ExecuteCount + 1 ∧
          t'.Stats.TotalDuration = t.Stats.TotalDuration + (tk.finish - tk.start) ∧
          t'.Stats.AvgDuration = Int.tdiv t'.Stats.TotalDuration t'.Stats.ExecuteCount ∧
          t'.Stats.LastError = "" ∧
          t'.Stats.LastRun = tk.now ∧
          t'.Stats.ErrorCount = t.Stats.ErrorCount ∧
          t'.Stats.Name = t.Stats.Name ∧ t'.Stats.Spec = t.Stats.Spec ∧
          t'.Stats.NextRun = t.Stats.NextRun))
      s.tasks (wrapTask name fn stats tk s w).sched.tasks := by
  refine ⟨?_, ?_, ?_, ?_, ?_⟩
  · rw [wrapTask_running name fn stats tk s w hrun]
  · rw [wrapTask_running name fn stats tk s w hrun]
  · rw [wrapTask_running name fn stats tk s w hrun]; rfl
  · rw [wrapTask_running name fn stats tk s w hrun]; rfl
  · refine (wrapTask_tasks name fn stats tk s w hrun).imp ?_
    intro t t' ⟨hother, hthis⟩
    by_cases h : t.EntryID = stats
    · rw [hthis h, hok]
      exact ⟨rfl, rfl, rfl, rfl, fun hne => absurd h hne, fun _ =>
        ⟨rfl, rfl, rfl, rfl, rfl, rfl, rfl, rfl, rfl⟩⟩
    · rw [hother h]
      exact ⟨rfl, rfl, rfl, rfl, fun _ => rfl, fun he => absurd he h⟩

theorem wrapTask_success_witness :
    exSched.cancelled = false ∧ (exWork 0).1 = .ok ∧
      ((wrapTask "a" exWork 1 ⟨100, 110, 111⟩ exSched 0).sched.tasks.map
        (fun t => (t.Stats.ExecuteCount, t.Stats.TotalDuration, t.Stats.AvgDuration))) =
        [(1, 10, 10), (0, 0, 0)] ∧
      (wrapTask "a" exWork 1 ⟨100, 110, 111⟩ exSched 0).escaped = none :=
  ⟨rfl, rfl, rfl, (wrapTask_success "a" exWork 1 ⟨100, 110, 111⟩ exSched 0 rfl rfl).1⟩

/-- C5: a firing that is not skipped and whose work fails, by returning an
error or by panicking, returns normally (no panic leaves the wrapper) and, in
the statistics it points to, adds one to `ExecuteCount` and to `ErrorCount`,
sets `LastError` to the failure's message (the error text, or `panic: ` and
the panic value) and `LastRun` to the clock reading, and leaves
`TotalDuration` and `AvgDuration` alone; every other task is untouched. -/
theorem wrapTask_failure (name : String) (fn : Work W) (stats : Nat) (tk : Ticks)
    (s : TaskScheduler W) (w : W) (hrun : s.cancelled = false) (hfail : (fn w).1 ≠ .ok) :
    (wrapTask name fn stats tk s w).escaped = none ∧
    (wrapTask name fn stats tk s w).world = (fn w).2 ∧
    (wrapTask name fn stats tk s w).sched.wg = s.wg ∧
    (wrapTask name fn stats tk s w).sched.cron = s.cron ∧
    List.Forall₂
      (fun t t' =>
        t'.Name = t.Name ∧ t'.Spec = t.Spec ∧ t'.Func = t.Func ∧ t'.EntryID = t.EntryID ∧
        (t.EntryID ≠ stats → t' = t) ∧
        (t.EntryID = stats →
          t'.Stats.ExecuteCount = t.Stats.ExecuteCount + 1 ∧
          t'.Stats.ErrorCount = t.Stats.ErrorCount + 1 ∧
          t'.Stats.LastError = (fn w).1.failureMessage ∧
          t'.Stats.LastRun = tk.now ∧
          t'.Stats.TotalDuration = t.Stats.TotalDuration ∧
          t'.Stats.AvgDuration = t.Stats.AvgDuration ∧
          t'.Stats.Name = t.Stats.Name ∧ t'.Stats.Spec = t.Stats.Spec ∧
          t'.Stats.NextRun = t.Stats.NextRun))
      s.tasks (wrapTask name fn stats tk s w).sched.tasks := by
  refine ⟨?_, ?_, ?_, ?_, ?_⟩
  · rw [wrapTask_running name fn stats tk s w hrun]
  · rw [wrapTask_running name fn stats tk s w hrun]
  · rw [wrapTask_running name fn stats tk s w hrun]; rfl
  · rw [wrapTask_running name fn stats tk s w hrun]; rfl
  · refine (wrapTask_tasks name fn stats tk s w hrun).imp ?_
    intro t t' ⟨hother, hthis⟩
    by_cases h : t.EntryID = stats
    · rw [hthis h]
      refine ⟨rfl, rfl, rfl, rfl, fun hne => absurd h hne, fun _ => ?_⟩
      cases ho : (fn w).1 with
      | ok => exact absurd ho hfail
      | err msg => exact ⟨rfl, rfl, rfl, rfl, rfl, rfl, rfl, rfl, rfl⟩
      | panic r => exact ⟨rfl, rfl, rfl, rfl, rfl, rfl, rfl, rfl, rfl⟩
    · rw [hother h]
      exact ⟨rfl, rfl, rfl, rfl, fun _ => rfl, fun he => absurd he h⟩

theorem wrapTask_failure_witness :
    exSched.cancelled = false ∧ (exPanic 0).1 ≠ .ok ∧
      ((wrapTask "b" exPanic 2 ⟨100, 110, 111⟩ exSched 0).sched.tasks.map
        (fun t => (t.Stats.ExecuteCount, t.Stats.ErrorCount, t.Stats.LastError))) =
        [(0, 0, ""), (1, 1, "panic: oops")] ∧
      (wrapTask "b" exPanic 2 ⟨100, 110, 111⟩ exSched 0).escaped = none :=
  ⟨rfl, by decide, rfl,
    (wrapTask_failure "b" exPanic 2 ⟨100, 110, 111⟩ exSched 0 rfl (by decide)).1⟩

/-! ## Replaying the firings of a task -/

theorem recorded_executeCount (o : Outcome) (tk : Ticks) (st : TaskStats) :
    (recorded o tk st).ExecuteCount = st.ExecuteCount + 1 := by
  cases o <;> rfl

theorem replay_append (h₁ h₂ : List Firing) (st : TaskStats) :
    replay (h₁ ++ h₂) st = replay h₂ (replay h₁ st) := by
  simp [replay, List.foldl_append]

theorem replay_concat (h : List Firing) (e : Firing) (st : TaskStats) :
    replay (h ++ [e]) st = recorded e.1 e.2 (replay h st) := by
  rw [replay_append]
  rfl

theorem replay_executeCount (h : List Firing) (st : TaskStats) :
    (replay h st).ExecuteCount = st.ExecuteCount + h.length := by
  induction h using List.reverseRecOn with
  | nil => rfl
  | append_singleton h e ih =>
    rw [replay_concat, recorded_executeCount, ih, List.length_append, List.length_singleton]
    omega

/-- A failed firing changes neither the total nor the average. -/
theorem recorded_failure (o : Outcome) (tk : Ticks) (st : TaskStats) (h : o ≠ .ok) :
    (recorded o tk st).TotalDuration = st.TotalDuration ∧
      (recorded o tk st).AvgDuration = st.AvgDuration := by
  cases o with
  | ok => exact absurd rfl h
  | err msg => exact ⟨rfl, rfl⟩
  | panic r => exact ⟨rfl, rfl⟩

/-- After a successful firing the average is the total divided by the
execution count. -/
theorem recorded_success (tk : Ticks) (st : TaskStats) :
    (recorded .ok tk st).AvgDuration =
      Int.tdiv (recorded .ok tk st).TotalDuration (recorded .ok tk st).ExecuteCount := rfl

/-- The total and the average after the firings of `h` are those after its
last successful firing, where the average is the total divided by the
execution count; with no successful firing they are the initial ones. -/
theorem replay_avg (h : List Firing) (st : TaskStats) :
    (replay h st).TotalDuration = (replay (uptoLastSuccess h) st).TotalDuration ∧
    (replay h st).AvgDuration = (replay (uptoLastSuccess h) st).AvgDuration ∧
    (uptoLastSuccess h ≠ [] →
      (replay (uptoLastSuccess h) st).AvgDuration =
        Int.tdiv (replay (uptoLastSuccess h) st).TotalDuration
          (replay (uptoLastSuccess h) st).ExecuteCount) := by
  induction h using List.reverseRecOn with
  | nil => exact ⟨rfl, rfl, fun hne => absurd rfl hne⟩
  | append_singleton h e ih =>
    by_cases hok : e.1 = .ok
    · have hp : uptoLastSuccess (h ++ [e]) = h ++ [e] := by
        unfold uptoLastSuccess
        exact List.rdropWhile_concat_neg _ _ _ (by simp [hok])
      rw [hp]
      refine ⟨rfl, rfl, fun _ => ?_⟩
      rw [replay_concat, hok]
      exact recorded_success _ _
    · have hp : uptoLastSuccess (h ++ [e]) = uptoLastSuccess h := by
        unfold uptoLastSuccess
        exact List.rdropWhile_concat_pos _ _ _ (by simpa using hok)
      rw [hp, replay_concat]
      obtain ⟨h1, h2⟩ := recorded_failure e.1 e.2 (replay h st) hok
      exact ⟨h1.trans ih.1, h2.trans ih.2.1, ih.2.2⟩

theorem replay_nil (st : TaskStats) : replay [] st = st := rfl

/-! ## The firings recorded for one task -/

theorem mem_onStats {s : TaskScheduler W} {ref : Nat} {f : TaskStats → TaskStats} {t' : Task W}
    (h : t' ∈ (s.onStats ref f).tasks) :
    ∃ t ∈ s.tasks, t.EntryID = t'.EntryID ∧
      t'.Stats = if t.EntryID = ref then f t.Stats else t.Stats := by
  simp only [TaskScheduler.onStats, List.mem_map] at h
  obtain ⟨t, ht, rfl⟩ := h
  refine ⟨t, ht, ?_, ?_⟩
  · split <;> rfl
  · split <;> rfl

/-- What a firing by the trigger does to the scheduler. -/
theorem fire_sched_eq (s : TaskScheduler W) (w : W) (id : Nat) (tk : Ticks) :
    (s.fire w id tk).sched =
      match s.cron.entry? id with
      | none => s
      | some e => if s.cancelled then s else s.onStats e.ID (recorded (e.Job.fn w).1 tk) := by
  unfold TaskScheduler.fire
  cases s.cron.entry? id with
  | none => rfl
  | some e => exact wrapTask_sched _ _ _ _ _ _

/-- A task found after one event is newly registered by a successful
`AddTask`, with the next handle of the trigger's counter, or is a task from
before with the same handle whose statistics have taken the firing the event
records for it, if any. -/
theorem step_task (s : TaskScheduler W) (c : Call W) (t' : Task W)
    (ht' : t' ∈ (s.step c).tasks) :
    (∃ name spec fn, c = .addTask name spec fn ∧ s.lookup name = none ∧
        s.cron.parser spec = none ∧ t'.EntryID = s.cron.nextID + 1) ∨
      ∃ t ∈ s.tasks, t.EntryID = t'.EntryID ∧
        t'.Stats = replay (s.recordedOn t'.EntryID c) t.Stats := by
  cases c with
  | addTask name spec fn =>
    simp only [TaskScheduler.step] at ht'
    rcases AddTask_cases s name spec fn with hsame | ⟨hnew, hacc⟩
    · rw [hsame] at ht'
      exact Or.inr ⟨t', ht', rfl, rfl⟩
    · rw [AddTask_ok s name spec fn hnew hacc] at ht'
      rcases List.mem_append.1 ht' with hold | hnew'
      · exact Or.inr ⟨t', hold, rfl, rfl⟩
      · rw [List.mem_singleton] at hnew'
        subst hnew'
        exact Or.inl ⟨name, spec, fn, rfl, hnew, hacc, rfl⟩
  | removeTask name =>
    exact Or.inr ⟨t', RemoveTask_tasks_subset s name t' ht', rfl, rfl⟩
  | start =>
    simp only [TaskScheduler.step, TaskScheduler.Start] at ht'
    split at ht' <;> exact Or.inr ⟨t', ht', rfl, rfl⟩
  | stop timeout r =>
    simp only [TaskScheduler.step, Stop_sched] at ht'
    exact Or.inr ⟨t', ht', rfl, rfl⟩
  | fire w id tk =>
    simp only [TaskScheduler.step, fire_sched_eq] at ht'
    simp only [TaskScheduler.recordedOn]
    cases hentry : s.cron.entry? id with
    | none =>
      rw [hentry] at ht'
      exact Or.inr ⟨t', ht', rfl, rfl⟩
    | some e =>
      rw [hentry] at ht'
      cases hc : s.cancelled
      · simp only [hc, Bool.false_eq_true, if_false] at ht'
        obtain ⟨t, ht, hid, hst⟩ := mem_onStats ht'
        refine Or.inr ⟨t, ht, hid, ?_⟩
        rw [hst]
        by_cases he : t.EntryID = e.ID
        · have he' : e.ID = t'.EntryID := by rw [← hid, he]
          simp [he, he', replay]
        · have he' : ¬ e.ID = t'.EntryID := fun h => he (by rw [hid, h])
          simp [he, he', replay]
      · simp only [hc, if_true] at ht'
        refine Or.inr ⟨t', ht', rfl, ?_⟩
        simp [replay]
  | enter id =>
    rw [step_enter] at ht'
    exact Or.inr ⟨t', ht', rfl, rfl⟩
  | leave stats o tk =>
    rw [step_leave] at ht'
    simp only [TaskScheduler.recordedOn]
    by_cases hwg : 0 < s.wg
    · rw [if_pos hwg] at ht'
      obtain ⟨t, ht, hid, hst⟩ := mem_onStats ht'
      refine Or.inr ⟨t, ht, hid, ?_⟩
      rw [hst]
      by_cases he : t.EntryID = stats
      · have he' : stats = t'.EntryID := by rw [← hid, he]
        simp [he, he', hwg, replay]
      · have he' : ¬ stats = t'.EntryID := fun h => he (by rw [hid, h])
        simp [he, he', replay]
    · rw [if_neg hwg] at ht'
      refine Or.inr ⟨t', ht', rfl, ?_⟩
      simp [hwg, replay]

theorem step_nextID (s : TaskScheduler W) (c : Call W) :
    s.cron.nextID ≤ (s.step c).cron.nextID := by
  cases c with
  | addTask name spec fn =>
    simp only [TaskScheduler.step]
    rcases AddTask_cases s name spec fn with hsame | ⟨hnew, hacc⟩
    · rw [hsame]
    · rw [AddTask_ok s name spec fn hnew hacc]
      exact Nat.le_succ _
  | removeTask name =>
    simp only [TaskScheduler.step]
    cases hl : s.lookup name with
    | none => rw [RemoveTask_absent s name hl]
    | some task => rw [RemoveTask_ok s name task hl]
  | start =>
    simp only [TaskScheduler.step, TaskScheduler.Start]
    split <;> exact Nat.le_refl _
  | stop timeout r =>
    simp only [TaskScheduler.step, Stop_sched]
    exact Nat.le_refl _
  | fire w id tk =>
    simp only [TaskScheduler.step]
    rcases fire_sched s w id tk with hs | ⟨ref, o, hs⟩
    · rw [hs]
    · rw [hs]
      exact Nat.le_refl _
  | enter id => rw [step_enter]
  | leave stats o tk =>
    rw [step_leave]
    split <;> exact Nat.le_refl _

theorem run_concat (s : TaskScheduler W) (cs : List (Call W)) (c : Call W) :
    s.run (cs ++ [c]) = (s.run cs).step c := by
  simp [TaskScheduler.run, List.foldl_append]

theorem history_concat (s : TaskScheduler W) (ref : Nat) (cs : List (Call W)) (c : Call W) :
    s.history ref (cs ++ [c]) = s.history ref cs ++ (s.run cs).recordedOn ref c := by
  induction cs generalizing s with
  | nil => simp [TaskScheduler.history, TaskScheduler.run]
  | cons c0 cs ih =>
    have hrun : s.run (c0 :: cs) = (s.step c0).run cs := rfl
    show s.recordedOn ref c0 ++ (s.step c0).history ref (cs ++ [c]) =
      s.recordedOn ref c0 ++ (s.step c0).history ref cs ++ (s.run (c0 :: cs)).recordedOn ref c
    rw [ih, hrun, List.append_assoc]

theorem wellFormed_run {s : TaskScheduler W} (h : WellFormed s) (cs : List (Call W)) :
    WellFormed (s.run cs) := by
  induction cs generalizing s with
  | nil => exact h
  | cons c cs ih => exact ih (wellFormed_step h c)

theorem run_nextID (s : TaskScheduler W) (cs : List (Call W)) :
    s.cron.nextID ≤ (s.run cs).cron.nextID := by
  induction cs generalizing s with
  | nil => exact Nat.le_refl _
  | cons c cs ih => exact Nat.le_trans (step_nextID s c) (ih (s.step c))

/-- The statistics of a registered task after any events are its statistics
from before with the firings recorded for it in between, in order. -/
theorem run_task (s : TaskScheduler W) (hwf : WellFormed s) (t : Task W) (ht : t ∈ s.tasks)
    (cs : List (Call W)) :
    ∀ t' ∈ (s.run cs).tasks, t'.EntryID = t.EntryID →
      t'.Stats = replay (s.history t.EntryID cs) t.Stats := by
  induction cs using List.reverseRecOn with
  | nil =>
    intro t' ht' hid
    have : t' = t := List.inj_on_of_nodup_map hwf.ids ht' ht hid
    rw [this]
    rfl
  | append_singleton cs c ih =>
    intro t' ht' hid
    rw [run_concat] at ht'
    rcases step_task (s.run cs) c t' ht' with ⟨_, _, _, _, _, _, hnew⟩ | ⟨t1, ht1, hid1, hst⟩
    · have h1 := hwf.bound t ht
      have h2 := run_nextID s cs
      omega
    · have hprev := ih t1 ht1 (hid1.trans hid)
      rw [history_concat, replay_append, ← hprev, ← hid]
      exact hst

/-- Every task of a reachable scheduler was registered by a successful
`AddTask` on a reachable scheduler, followed by some events. -/
theorem Reachable.registered {s' : TaskScheduler W} (hs' : Reachable s') :
    ∀ t ∈ s'.tasks, ∃ (s : TaskScheduler W) (name spec : String) (fn : Work W)
      (cs : List (Call W)), Reachable s ∧ s.lookup name = none ∧ s.cron.parser spec = none ∧
        s' = (s.AddTask name spec fn).1.run cs ∧ t.EntryID = s.cron.nextID + 1 := by
  induction hs' with
  | init parser => intro t ht; exact absurd ht (List.not_mem_nil _)
  | @step s0 c hs0 ih =>
    intro t ht
    rcases step_task s0 c t ht with ⟨name, spec, fn, hc, hnew, hacc, hid⟩ | ⟨t1, ht1, hid1, _⟩
    · refine ⟨s0, name, spec, fn, [], hs0, hnew, hacc, ?_, hid⟩
      rw [hc]
      rfl
    · obtain ⟨s, name, spec, fn, cs, hs, hnew, hacc, hrun, hid⟩ := ih t1 ht1
      refine ⟨s, name, spec, fn, cs ++ [c], hs, hnew, hacc, ?_, hid1 ▸ hid⟩
      rw [run_concat, ← hrun]

/-! ## The average duration -/

/-- C6, as the code has it: take a task registered by `AddTask` on a
reachable scheduler, any events after that, and the firings `h` that these
events record for the task, oldest first.  If the task is still registered,
its statistics are the fresh ones with the firings of `h` recorded in order,
`ExecuteCount` is their number, and `AvgDuration` is `TotalDuration` divided
(integer division) by the value `ExecuteCount` had right after the last
successful firing of `h`, however many failed firings came later; as long as
no firing has succeeded both are 0.  So `AvgDuration = TotalDuration /
ExecuteCount` holds when the task has run and no firing of it has failed. -/
theorem avgDuration_at_last_success (s : TaskScheduler W) (hs : Reachable s)
    (name spec : String) (fn : Work W) (hnew : s.lookup name = none)
    (hacc : s.cron.parser spec = none) (cs : List (Call W)) (t : Task W)
    (ht : t ∈ ((s.AddTask name spec fn).1.run cs).tasks)
    (hid : t.EntryID = s.cron.nextID + 1) (h : List Firing)
    (hh : h = (s.AddTask name spec fn).1.history (s.cron.nextID + 1) cs) :
    t.Stats = replay h (TaskStats.fresh name spec) ∧
    t.Stats.ExecuteCount = h.length ∧
    (uptoLastSuccess h = [] → t.Stats.TotalDuration = 0 ∧ t.Stats.AvgDuration = 0) ∧
    (uptoLastSuccess h ≠ [] →
      t.Stats.AvgDuration =
        Int.tdiv t.Stats.TotalDuration
          (replay (uptoLastSuccess h) (TaskStats.fresh name spec)).ExecuteCount) ∧
    (replay (uptoLastSuccess h) (TaskStats.fresh name spec)).ExecuteCount =
      (uptoLastSuccess h).length ∧
    (∃ k : Nat, k ≤ t.Stats.ExecuteCount ∧ t.Stats.ExecuteCount - k ≤ t.Stats.ErrorCount ∧
      (k = 0 → t.Stats.TotalDuration = 0 ∧ t.Stats.AvgDuration = 0) ∧
      (0 < k → t.Stats.AvgDuration = Int.tdiv t.Stats.TotalDuration k)) ∧
    (t.Stats.ErrorCount = 0 → 0 < t.Stats.ExecuteCount →
      t.Stats.AvgDuration = Int.tdiv t.Stats.TotalDuration t.Stats.ExecuteCount) := by
  have hreach : Reachable ((s.AddTask name spec fn).1.run cs) :=
    (Reachable.step (.addTask name spec fn) hs).run cs
  have hwf1 : WellFormed (s.AddTask name spec fn).1 := wellFormed_AddTask hs.wellFormed _ _ _
  have hmem : Task.mk name spec fn (s.cron.nextID + 1) (TaskStats.fresh name spec) ∈
      (s.AddTask name spec fn).1.tasks := by
    rw [AddTask_ok s name spec fn hnew hacc]
    exact List.mem_append_right _ (List.mem_singleton_self _)
  have hstats : t.Stats = replay h (TaskStats.fresh name spec) := by
    rw [hh]
    exact run_task _ hwf1 _ hmem cs t ht hid
  obtain ⟨htot, havg, hdiv⟩ := replay_avg h (TaskStats.fresh name spec)
  have hcount := replay_executeCount (uptoLastSuccess h) (TaskStats.fresh name spec)
  obtain ⟨_, k, hk, hsince, hzero, hpos⟩ := hreach.statsInv t ht
  refine ⟨hstats, ?_, ?_, ?_, ?_, ⟨k, hk, hsince, hzero, hpos⟩, ?_⟩
  · rw [hstats, replay_executeCount]
    show 0 + h.length = h.length
    omega
  · intro hnone
    rw [hstats, htot, havg, hnone]
    exact ⟨rfl, rfl⟩
  · intro hsome
    rw [hstats, havg, htot]
    exact hdiv hsome
  · rw [hcount]
    show 0 + (uptoLastSuccess h).length = (uptoLastSuccess h).length
    omega
  · intro herr hexec
    have hkeq : k = t.Stats.ExecuteCount := by omega
    rw [← hkeq]
    exact hpos (by omega)

theorem avgDuration_at_last_success_witness :
    Reachable (GetScheduler exParser : TaskScheduler Nat) ∧
      (GetScheduler exParser : TaskScheduler Nat).lookup "a" = none ∧
      exTaskA ∈ exFired.tasks ∧
      uptoLastSuccess [((Outcome.ok, ⟨100, 110, 111⟩) : Firing), (.err "boom", ⟨200, 230, 231⟩)] =
        [(.ok, ⟨100, 110, 111⟩)] ∧
      exTaskA.Stats.AvgDuration = Int.tdiv exTaskA.Stats.TotalDuration 1 :=
  ⟨Reachable.init exParser, rfl, exTaskA_mem, by decide,
    (avgDuration_at_last_success (GetScheduler exParser) (Reachable.init exParser) "a"
      "@every 1s" exWork rfl rfl
      [.addTask "b" "@daily" exPanic, .fire 0 1 ⟨100, 110, 111⟩, .fire 1 1 ⟨200, 230, 231⟩,
        .fire 0 2 ⟨300, 305, 306⟩]
      exTaskA exTaskA_mem rfl
      [(.ok, ⟨100, 110, 111⟩), (.err "boom", ⟨200, 230, 231⟩)] rfl).2.2.2.1 (by decide)⟩

/-- C6 as stated fails: after a successful firing of 10ns and a failed firing,
task `"a"` of `exFired` has run twice with a total of 10ns, and its average is
still 10ns, not 10 / 2. -/
theorem avgDuration_stale_after_failure :
    Reachable exFired ∧ exTaskA ∈ exFired.tasks ∧ 0 < exTaskA.Stats.ExecuteCount ∧
      exTaskA.Stats.AvgDuration ≠
        Int.tdiv exTaskA.Stats.TotalDuration exTaskA.Stats.ExecuteCount :=
  ⟨exFired_reachable, exTaskA_mem, by decide, by decide⟩

/-! ## After cancellation -/

theorem AddTask_cancelled (s : TaskScheduler W) (name spec : String) (fn : Work W) :
    (s.AddTask name spec fn).1.cancelled = s.cancelled := by
  rcases AddTask_cases s name spec fn with hsame | ⟨hnew, hacc⟩
  · rw [hsame]
  · rw [AddTask_ok s name spec fn hnew hacc]

theorem RemoveTask_cancelled (s : TaskScheduler W) (name : String) :
    (s.RemoveTask name).1.cancelled = s.cancelled := by
  cases hl : s.lookup name with
  | none => rw [RemoveTask_absent s name hl]
  | some task => rw [RemoveTask_ok s name task hl]

theorem fire_cancelled (s : TaskScheduler W) (w : W) (id : Nat) (tk : Ticks)
    (hc : s.cancelled = true) : s.fire w id tk = { sched := s, world := w, escaped := none } := by
  unfold TaskScheduler.fire
  cases s.cron.entry? id with
  | none => rfl
  | some e => exact wrapTask_cancelled _ _ _ _ _ _ hc

theorem AddTask_wg (s : TaskScheduler W) (name spec : String) (fn : Work W) :
    (s.AddTask name spec fn).1.wg = s.wg := by
  rcases AddTask_cases s name spec fn with hsame | ⟨hnew, hacc⟩
  · rw [hsame]
  · rw [AddTask_ok s name spec fn hnew hacc]

theorem RemoveTask_wg (s : TaskScheduler W) (name : String) :
    (s.RemoveTask name).1.wg = s.wg := by
  cases hl : s.lookup name with
  | none => rw [RemoveTask_absent s name hl]
  | some task => rw [RemoveTask_ok s name task hl]

/-- One event on a cancelled scheduler with nothing in flight: it stays so,
and each task found afterwards was there before, unchanged, or has just been
registered. -/
theorem step_after_cancel (s : TaskScheduler W) (hc : s.cancelled = true) (hwg : s.wg = 0)
    (c : Call W) :
    (s.step c).cancelled = true ∧ (s.step c).wg = 0 ∧
      ∀ t ∈ (s.step c).tasks, t ∈ s.tasks ∨ ∃ name spec, t.Stats = TaskStats.fresh name spec := by
  cases c with
  | addTask name spec fn =>
    refine ⟨by simp only [TaskScheduler.step, AddTask_cancelled, hc],
      by simp only [TaskScheduler.step, AddTask_wg, hwg], fun t ht => ?_⟩
    rcases AddTask_tasks s name spec fn t ht with hold | ⟨_, hst⟩
    · exact Or.inl hold
    · exact Or.inr ⟨name, spec, hst⟩
  | removeTask name =>
    exact ⟨by simp only [TaskScheduler.step, RemoveTask_cancelled, hc],
      by simp only [TaskScheduler.step, RemoveTask_wg, hwg],
      fun t ht => Or.inl (RemoveTask_tasks_subset s name t ht)⟩
  | start =>
    simp only [TaskScheduler.step, TaskScheduler.Start]
    split
    · exact ⟨hc, hwg, fun t ht => Or.inl ht⟩
    · exact ⟨hc, hwg, fun t ht => Or.inl ht⟩
  | stop timeout r =>
    refine ⟨by simp only [TaskScheduler.step, Stop_sched],
      by simpa only [TaskScheduler.step, Stop_sched] using hwg, fun t ht => Or.inl ?_⟩
    simpa only [TaskScheduler.step, Stop_sched] using ht
  | fire w id tk =>
    simp only [TaskScheduler.step, fire_cancelled s w id tk hc]
    exact ⟨hc, hwg, fun t ht => Or.inl ht⟩
  | enter id =>
    rw [step_enter]
    refine ⟨hc, ?_, fun t ht => Or.inl ht⟩
    simp [hc, hwg]
  | leave stats o tk =>
    have h0 : ¬ 0 < s.wg := by omega
    rw [step_leave, if_neg h0]
    exact ⟨hc, hwg, fun t ht => Or.inl ht⟩

theorem run_after_cancel (s0 s : TaskScheduler W) (hc : s.cancelled = true) (hwg : s.wg = 0)
    (hP : ∀ t ∈ s.tasks, t ∈ s0.tasks ∨ ∃ name spec, t.Stats = TaskStats.fresh name spec)
    (cs : List (Call W)) :
    (s.run cs).cancelled = true ∧
      ∀ t ∈ (s.run cs).tasks,
        t ∈ s0.tasks ∨ ∃ name spec, t.Stats = TaskStats.fresh name spec := by
  induction cs generalizing s with
  | nil => exact ⟨hc, hP⟩
  | cons c cs ih =>
    obtain ⟨hc1, hwg1, hP1⟩ := step_after_cancel s hc hwg c
    refine ih (s.step c) hc1 hwg1 ?_
    intro t ht
    rcases hP1 t ht with hold | hnew
    · exact hP t hold
    · exact Or.inr hnew

/-- Recording through one handle adds at most one execution when handles
identify tasks. -/
theorem sum_onStats_le (ref : Nat) (o : Outcome) (tk : Ticks) (l : List (Task W))
    (hid : (l.map (fun t => t.EntryID)).Nodup) :
    ((l.map (fun t => if t.EntryID = ref then { t with Stats := recorded o tk t.Stats } else t)).map
        (fun t => t.Stats.ExecuteCount)).sum ≤ (l.map (fun t => t.Stats.ExecuteCount)).sum + 1 := by
  induction l with
  | nil => simp
  | cons t l ih =>
    rw [List.map_cons, List.nodup_cons] at hid
    by_cases h : t.EntryID = ref
    · have htail : l.map
          (fun t => if t.EntryID = ref then { t with Stats := recorded o tk t.Stats } else t) = l := by
        conv_rhs => rw [← List.map_id l]
        apply List.map_congr_left
        intro t' ht'
        have hne : t'.EntryID ≠ ref := by
          intro h'
          exact hid.1 (List.mem_map.2 ⟨t', ht', by rw [h', h]⟩)
        simp [hne]
      simp only [List.map_cons, htail, h, if_true, List.sum_cons, recorded_executeCount]
      omega
    · have := ih hid.2
      simp only [List.map_cons, h, if_false, List.sum_cons]
      omega

theorem sum_filter_le (p : Task W → Bool) (l : List (Task W)) :
    ((l.filter p).map (fun t => t.Stats.ExecuteCount)).sum ≤
      (l.map (fun t => t.Stats.ExecuteCount)).sum := by
  induction l with
  | nil => simp
  | cons t l ih =>
    cases hp : p t
    · simp only [List.filter_cons, hp, List.map_cons, List.sum_cons]
      exact Nat.le_trans ih (Nat.le_add_left _ _)
    · simp only [List.filter_cons, hp, if_true, List.map_cons, List.sum_cons]
      omega

/-- One event on a cancelled well-formed scheduler: it stays cancelled, and
the recorded executions plus the executions in flight do not grow. -/
theorem step_potential (s : TaskScheduler W) (hwf : WellFormed s) (hc : s.cancelled = true)
    (c : Call W) :
    (s.step c).cancelled = true ∧
      (s.step c).recordedExecutions + (s.step c).wg ≤ s.recordedExecutions + s.wg := by
  cases c with
  | addTask name spec fn =>
    refine ⟨by simp only [TaskScheduler.step, AddTask_cancelled, hc], ?_⟩
    simp only [TaskScheduler.step]
    rcases AddTask_cases s name spec fn with hsame | ⟨hnew, hacc⟩
    · rw [hsame]
    · rw [AddTask_ok s name spec fn hnew hacc]
      simp [TaskScheduler.recordedExecutions, TaskStats.fresh]
  | removeTask name =>
    refine ⟨by simp only [TaskScheduler.step, RemoveTask_cancelled, hc], ?_⟩
    simp only [TaskScheduler.step]
    cases hl : s.lookup name with
    | none => rw [RemoveTask_absent s name hl]
    | some task =>
      rw [RemoveTask_ok s name task hl]
      exact Nat.add_le_add_right (sum_filter_le _ s.tasks) _
  | start =>
    simp only [TaskScheduler.step, TaskScheduler.Start]
    split
    · exact ⟨hc, Nat.le_refl _⟩
    · exact ⟨hc, Nat.le_refl _⟩
  | stop timeout r =>
    refine ⟨by simp only [TaskScheduler.step, Stop_sched], ?_⟩
    simp only [TaskScheduler.step, Stop_sched]
    exact Nat.le_refl _
  | fire w id tk =>
    simp only [TaskScheduler.step, fire_cancelled s w id tk hc]
    exact ⟨hc, Nat.le_refl _⟩
  | enter id =>
    rw [step_enter]
    refine ⟨hc, ?_⟩
    simp [hc, TaskScheduler.recordedExecutions]
  | leave stats o tk =>
    rw [step_leave]
    split
    · refine ⟨hc, ?_⟩
      have := sum_onStats_le stats o tk s.tasks hwf.ids
      simp only [TaskScheduler.recordedExecutions, TaskScheduler.onStats] at this ⊢
      omega
    · exact ⟨hc, Nat.le_refl _⟩

theorem run_potential (s : TaskScheduler W) (hwf : WellFormed s) (hc : s.cancelled = true)
    (cs : List (Call W)) :
    (s.run cs).cancelled = true ∧
      (s.run cs).recordedExecutions + (s.run cs).wg ≤ s.recordedExecutions + s.wg := by
  induction cs generalizing s with
  | nil => exact ⟨hc, Nat.le_refl _⟩
  | cons c cs ih =>
    obtain ⟨hc1, hle1⟩ := step_potential s hwf hc c
    obtain ⟨hc2, hle2⟩ := ih (s.step c) (wellFormed_step hwf c) hc1
    exact ⟨hc2, Nat.le_trans hle2 hle1⟩

/-- C7, as the code has it: `Stop` broadcasts the cancellation signal, and on
a reachable scheduler whose signal has been broadcast every call of the
wrapper, for any task and any work, returns with the scheduler (all
statistics and the in-flight counter included) and the outside world exactly
as they were, so the work was not run.  After any further events the
scheduler is still cancelled, and the executions recorded since are at most
those that were in flight at the start: recorded executions plus the
in-flight counter never grow.  With nothing in flight, every registered task
is a task from before with its statistics unchanged or a newly registered one
that has recorded nothing. -/
theorem cancelled_firing_skips (s : TaskScheduler W) (hs : Reachable s) :
    (∀ timeout r, (s.Stop timeout r).sched.cancelled = true) ∧
    (s.cancelled = true →
      (∀ name fn stats tk w,
        wrapTask name fn stats tk s w = { sched := s, world := w, escaped := none }) ∧
      (∀ w id tk, s.fire w id tk = { sched := s, world := w, escaped := none }) ∧
      (∀ cs : List (Call W), (s.run cs).cancelled = true ∧
        (s.run cs).recordedExecutions + (s.run cs).wg ≤ s.recordedExecutions + s.wg ∧
        (s.wg = 0 → ∀ t ∈ (s.run cs).tasks,
          t ∈ s.tasks ∨ ∃ name spec, t.Stats = TaskStats.fresh name spec))) := by
  refine ⟨fun timeout r => by rw [Stop_sched], fun hc => ⟨?_, ?_, ?_⟩⟩
  · intro name fn stats tk w
    exact wrapTask_cancelled name fn stats tk s w hc
  · intro w id tk
    exact fire_cancelled s w id tk hc
  · intro cs
    obtain ⟨h1, h2⟩ := run_potential s hs.wellFormed hc cs
    exact ⟨h1, h2, fun hwg => (run_after_cancel s s hc hwg (fun t ht => Or.inl ht) cs).2⟩

theorem exStopped_reachable : Reachable exStopped :=
  Reachable.step (.stop 10 ⟨0, 0, true, true⟩) exFired_reachable

theorem cancelled_firing_skips_witness :
    Reachable exStopped ∧ exStopped.cancelled = true ∧
      wrapTask "a" exWork 1 ⟨400, 410, 411⟩ exStopped 0 =
        { sched := exStopped, world := 0, escaped := none } :=
  ⟨exStopped_reachable, rfl,
    ((cancelled_firing_skips exStopped exStopped_reachable).2 rfl).1 "a" exWork 1
      ⟨400, 410, 411⟩ 0⟩

/-- C7 as stated fails in its last part: in `exInFlight` an execution of `"a"`
passed the cancellation check before `Stop` was called; the scheduler is
cancelled and has recorded nothing, and when that execution ends its result is
recorded all the same. -/
theorem execution_recorded_after_stop :
    Reachable exInFlight ∧ exInFlight.cancelled = true ∧ exInFlight.recordedExecutions = 0 ∧
      (exInFlight.run [.leave 1 .ok ⟨100, 110, 111⟩]).recordedExecutions = 1 ∧
      (exInFlight.run [.leave 1 .ok ⟨100, 110, 111⟩]).tasks.map (fun t => t.Stats.ExecuteCount) =
        [1, 0] :=
  ⟨exSched_reachable.run _, rfl, rfl, rfl, rfl⟩

/-! ## Health -/

/-- The error rate is above one half exactly when the task has run and more
than half of its executions failed. -/
theorem errorRate_gt_half (st : TaskStats) :
    errorRate st > 1 / 2 ↔ 0 < st.ExecuteCount ∧ st.ExecuteCount < 2 * st.ErrorCount := by
  unfold errorRate
  rcases Nat.eq_zero_or_pos st.ExecuteCount with h0 | hpos
  · simp [h0]
  · have hq : (0 : ℚ) < (st.ExecuteCount : ℚ) := by exact_mod_cast hpos
    rw [gt_iff_lt, lt_div_iff₀ hq]
    constructor
    · intro h
      refine ⟨hpos, ?_⟩
      have h2 : (st.ExecuteCount : ℚ) < 2 * (st.ErrorCount : ℚ) := by linarith
      exact_mod_cast h2
    · rintro ⟨_, h⟩
      have h2 : (st.ExecuteCount : ℚ) < 2 * (st.ErrorCount : ℚ) := by exact_mod_cast h
      linarith

theorem healthLoop_eq_true (l : List (Task W)) :
    healthLoop l = true ↔ ∀ t ∈ l, ¬ errorRate t.Stats > 1 / 2 := by
  induction l with
  | nil => simp [healthLoop]
  | cons t l ih =>
    simp only [healthLoop, List.mem_cons, forall_eq_or_imp]
    by_cases hrun : t.Stats.ExecuteCount > 0
    · by_cases hrate : errorRate t.Stats > 1 / 2
      · rw [if_pos hrun, if_pos hrate]
        exact ⟨fun h => absurd h (by simp), fun h => absurd hrate h.1⟩
      · rw [if_pos hrun, if_neg hrate, ih]
        exact ⟨fun h => ⟨hrate, h⟩, fun h => h.2⟩
    · have hrate : ¬ errorRate t.Stats > 1 / 2 := fun h => hrun ((errorRate_gt_half _).1 h).1
      rw [if_neg hrun, ih]
      exact ⟨fun h => ⟨hrate, h⟩, fun h => h.2⟩

/-- C8: `Health` is false when no task is registered, false when some
registered task has `ErrorCount / ExecuteCount` above one half, and true
otherwise.  A task that has never run, and a task of which exactly half of
the executions failed, have a ratio that is not above one half. -/
theorem Health_spec (s : TaskScheduler W) :
    (s.tasks = [] → s.Health = false) ∧
    ((∃ t ∈ s.tasks, errorRate t.Stats > 1 / 2) → s.Health = false) ∧
    (s.tasks ≠ [] → (∀ t ∈ s.tasks, ¬ errorRate t.Stats > 1 / 2) → s.Health = true) ∧
    (∀ st : TaskStats, st.ExecuteCount = 0 → ¬ errorRate st > 1 / 2) ∧
    (∀ st : TaskStats, st.ExecuteCount = 2 * st.ErrorCount → ¬ errorRate st > 1 / 2) ∧
    (∀ st : TaskStats,
      errorRate st > 1 / 2 ↔ 0 < st.ExecuteCount ∧ st.ExecuteCount < 2 * st.ErrorCount) := by
  refine ⟨?_, ?_, ?_, ?_, ?_, errorRate_gt_half⟩
  · intro h
    simp [TaskScheduler.Health, h]
  · rintro ⟨t, ht, hrate⟩
    have hloop : healthLoop s.tasks ≠ true := fun h => (healthLoop_eq_true s.tasks).1 h t ht hrate
    simp only [TaskScheduler.Health]
    split
    · rfl
    · simpa using hloop
  · intro hne hall
    have hlen : ¬ s.tasks.length = 0 := fun h => hne (List.length_eq_zero.1 h)
    simp only [TaskScheduler.Health, hlen, if_false]
    exact (healthLoop_eq_true s.tasks).2 hall
  · intro st h0 hrate
    have := ((errorRate_gt_half st).1 hrate).1
    omega
  · intro st hhalf hrate
    have := ((errorRate_gt_half st).1 hrate).2
    omega

theorem Health_spec_witness :
    (∃ t ∈ exFired.tasks, errorRate t.Stats > 1 / 2) ∧ exFired.Health = false ∧
      exSched.tasks ≠ [] ∧ exSched.Health = true :=
  ⟨⟨_, List.mem_cons_of_mem _ (List.mem_cons_self _ _),
      (errorRate_gt_half _).2 ⟨by decide, by decide⟩⟩,
    (Health_spec exFired).2.1 ⟨_, List.mem_cons_of_mem _ (List.mem_cons_self _ _),
      (errorRate_gt_half _).2 ⟨by decide, by decide⟩⟩,
    List.cons_ne_nil _ _,
    (Health_spec exSched).2.2.1 (List.cons_ne_nil _ _) (by
      intro t ht hrate
      have hpos := ((errorRate_gt_half _).1 hrate).1
      have h0 : t.Stats.ExecuteCount = 0 := by
        rcases List.mem_cons.1 ht with rfl | ht
        · rfl
        · rcases List.mem_cons.1 ht with rfl | ht
          · rfl
          · exact absurd ht (List.not_mem_nil _)
      omega)⟩

/-! ## Shutdown -/

/-- `Stop` by cases on when the in-flight executions finish. -/
theorem Stop_cases (s : TaskScheduler W) (timeout : Int) (r : Shutdown) :
    (r.tDone < firstWaitEnd timeout r + timeout.toNat →
      (s.Stop timeout r).err = none ∧
      (s.Stop timeout r).returnedAt = max (firstWaitEnd timeout r) r.tDone) ∧
    (firstWaitEnd timeout r + timeout.toNat < r.tDone →
      (s.Stop timeout r).err = some (.shutdownTimeout timeout) ∧
      (s.Stop timeout r).returnedAt = firstWaitEnd timeout r + timeout.toNat) ∧
    (r.tDone = firstWaitEnd timeout r + timeout.toNat →
      (s.Stop timeout r).err = (if r.tieDone then none else some (.shutdownTimeout timeout)) ∧
      (s.Stop timeout r).returnedAt = r.tDone) := by
  have ht1 : (if r.tAck < timeout.toNat ∨ (r.tAck = timeout.toNat ∧ r.tieAck = true)
      then r.tAck else timeout.toNat) = firstWaitEnd timeout r := by
    unfold firstWaitEnd
    split
    · next h => rcases h with h | ⟨h, _⟩ <;> omega
    · next h =>
      have : timeout.toNat ≤ r.tAck := by
        by_contra hlt
        exact h (Or.inl (by omega))
      omega
  simp only [TaskScheduler.Stop, ht1]
  refine ⟨?_, ?_, ?_⟩
  · intro h
    rw [if_pos (Or.inl h)]
    exact ⟨rfl, rfl⟩
  · intro h
    rw [if_neg (by rintro (h' | ⟨h', _⟩) <;> omega)]
    exact ⟨rfl, rfl⟩
  · intro h
    cases htie : r.tieDone
    · rw [if_neg (by rintro (h' | ⟨_, h'⟩) <;> simp_all)]
      exact ⟨by simp, by simp [h]⟩
    · rw [if_pos (Or.inr ⟨h, rfl⟩)]
      refine ⟨by simp, ?_⟩
      show max (firstWaitEnd timeout r) r.tDone = r.tDone
      omega

/-- C9, as the code has it: `Stop(timeout)` returns the shutdown-timeout error
when the in-flight executions finish later than `timeout` after the end of
the first wait, that is later than `min(tAck, timeout) + timeout` after the
call, and returns no error when they finish earlier (at that very instant
either may happen); no other error is returned.  The first wait running into
its timeout does not by itself make `Stop` return an error. -/
theorem Stop_error_iff (s : TaskScheduler W) (timeout : Int) (r : Shutdown) :
    (firstWaitEnd timeout r + timeout.toNat < r.tDone →
      (s.Stop timeout r).err = some (.shutdownTimeout timeout)) ∧
    (r.tDone < firstWaitEnd timeout r + timeout.toNat → (s.Stop timeout r).err = none) ∧
    ((s.Stop timeout r).err = none ↔
      (r.tDone < firstWaitEnd timeout r + timeout.toNat ∨
        (r.tDone = firstWaitEnd timeout r + timeout.toNat ∧ r.tieDone = true))) ∧
    ((s.Stop timeout r).err = none ∨
      (s.Stop timeout r).err = some (.shutdownTimeout timeout)) := by
  obtain ⟨hlt, hgt, heq⟩ := Stop_cases s timeout r
  refine ⟨fun h => (hgt h).1, fun h => (hlt h).1, ?_, ?_⟩
  · rcases Nat.lt_trichotomy r.tDone (firstWaitEnd timeout r + timeout.toNat) with h | h | h
    · simp [(hlt h).1, h]
    · rw [(heq h).1]
      cases htie : r.tieDone <;> simp [h]
    · rw [(hgt h).1]
      simp only [reduceCtorEq, false_iff, not_or, not_and]
      exact ⟨by omega, fun h' => absurd h' (by omega)⟩
  · rcases Nat.lt_trichotomy r.tDone (firstWaitEnd timeout r + timeout.toNat) with h | h | h
    · exact Or.inl (hlt h).1
    · rw [(heq h).1]
      cases r.tieDone
      · exact Or.inr rfl
      · exact Or.inl rfl
    · exact Or.inr (hgt h).1

theorem Stop_error_iff_witness :
    firstWaitEnd 10 ⟨15, 25, true, true⟩ + (10 : Int).toNat < 25 ∧
      (exSched.Stop 10 ⟨15, 25, true, true⟩).err = some (.shutdownTimeout 10) :=
  ⟨by decide, (Stop_error_iff exSched 10 ⟨15, 25, true, true⟩).1 (by decide)⟩

/-- C9 as stated fails: with a timeout of 10, a trigger that acknowledges
after 15 and executions that finish after 15, the first wait runs into its
timeout, and `Stop` still returns no error, 15 after the call. -/
theorem Stop_no_error_after_slow_ack :
    (10 : Int).toNat < (⟨15, 15, true, true⟩ : Shutdown).tAck ∧
      (exSched.Stop 10 ⟨15, 15, true, true⟩).cronStopped = false ∧
      (exSched.Stop 10 ⟨15, 15, true, true⟩).err = none ∧
      (exSched.Stop 10 ⟨15, 15, true, true⟩).returnedAt = 15 :=
  ⟨by decide, rfl, rfl, rfl⟩

/-- C10, as the code has it: for a timeout `T > 0`, `Stop(T)` returns no
later than `2 * T` after the call, each of its two successive waits being
bounded by `T`.  With executions in flight that finish at `tDone ≤ 2 * T`
(a task whose body runs for `2 * T`), `Stop` returns before they finish if
and only if the trigger acknowledges the stop more than `T` before they
finish, `tAck + T < tDone`; it then returns at `tAck + T` with the
shutdown-timeout error.  In every other case it returns at
`max (min tAck T) tDone`, not before they have finished; so it does whenever
the trigger acknowledges no earlier than they finish, as a trigger that waits
for its running jobs does. -/
theorem Stop_returns_within_two_timeouts (s : TaskScheduler W) (T : Int) (hT : 0 < T)
    (r : Shutdown) :
    ((s.Stop T r).returnedAt : Int) ≤ 2 * T ∧
    ((r.tDone : Int) ≤ 2 * T →
      ((s.Stop T r).returnedAt < r.tDone ↔ (r.tAck : Int) + T < r.tDone) ∧
      ((r.tAck : Int) + T < r.tDone →
        ((s.Stop T r).returnedAt : Int) = r.tAck + T ∧
        (s.Stop T r).returnedAt < r.tDone ∧
        (s.Stop T r).err = some (.shutdownTimeout T)) ∧
      (¬ (r.tAck : Int) + T < r.tDone →
        (s.Stop T r).returnedAt = max (min r.tAck T.toNat) r.tDone ∧
        r.tDone ≤ (s.Stop T r).returnedAt) ∧
      (r.tDone ≤ r.tAck →
        (s.Stop T r).returnedAt = max (min r.tAck T.toNat) r.tDone ∧
        r.tDone ≤ (s.Stop T r).returnedAt)) := by
  have hn : (T.toNat : Int) = T := Int.toNat_of_nonneg (Int.le_of_lt hT)
  obtain ⟨hlt, hgt, heq⟩ := Stop_cases s T r
  have hfirst : firstWaitEnd T r = min r.tAck T.toNat := rfl
  have hbound : ((s.Stop T r).returnedAt : Int) ≤ 2 * T := by
    rcases Nat.lt_trichotomy r.tDone (firstWaitEnd T r + T.toNat) with h | h | h
    · rw [(hlt h).2]; omega
    · rw [(heq h).2]; omega
    · rw [(hgt h).2]; omega
  have hearly : (r.tDone : Int) ≤ 2 * T → (r.tAck : Int) + T < r.tDone →
      ((s.Stop T r).returnedAt : Int) = r.tAck + T ∧
      (s.Stop T r).returnedAt < r.tDone ∧
      (s.Stop T r).err = some (.shutdownTimeout T) := by
    intro _ hack
    have h : firstWaitEnd T r + T.toNat < r.tDone := by omega
    rw [(hgt h).1, (hgt h).2]
    exact ⟨by omega, h, rfl⟩
  have hwaited : (r.tDone : Int) ≤ 2 * T → ¬ (r.tAck : Int) + T < r.tDone →
      (s.Stop T r).returnedAt = max (min r.tAck T.toNat) r.tDone ∧
      r.tDone ≤ (s.Stop T r).returnedAt := by
    intro _ hack
    rcases Nat.lt_trichotomy r.tDone (firstWaitEnd T r + T.toNat) with h | h | h
    · rw [(hlt h).2, hfirst]
      exact ⟨rfl, by omega⟩
    · rw [(heq h).2]
      exact ⟨by omega, Nat.le_refl _⟩
    · omega
  refine ⟨hbound, fun h2T => ⟨?_, hearly h2T, hwaited h2T, ?_⟩⟩
  · constructor
    · intro hret
      by_contra hack
      have := (hwaited h2T hack).2
      omega
    · intro hack
      exact (hearly h2T hack).2.1
  · intro hle
    exact hwaited h2T (by omega)

theorem Stop_returns_within_two_timeouts_witness :
    (0 : Int) < 10 ∧ ((exSched.Stop 10 ⟨18, 18, true, true⟩).returnedAt : Int) ≤ 2 * 10 ∧
      (exSched.Stop 10 ⟨18, 18, true, true⟩).returnedAt = 18 ∧
      ¬ (exSched.Stop 10 ⟨18, 18, true, true⟩).returnedAt < 18 :=
  ⟨by decide, (Stop_returns_within_two_timeouts exSched 10 (by decide) ⟨18, 18, true, true⟩).1,
    rfl,
    fun h => absurd
      (((Stop_returns_within_two_timeouts exSched 10 (by decide) ⟨18, 18, true, true⟩).2
        (by decide)).1.1 h) (by decide)⟩

/-- C10 as stated fails: with `T = 10` and a task that runs for 20.  When the
task starts as `Stop` is called, it ends 20 after the call and so does the
trigger's acknowledgement, which waits for the running job: `Stop` returns 20
after the call, whichever case its last `select` picks.  When the task started
5 before the call, `Stop` returns after 15 without an error, as the task
ends. -/
theorem Stop_waits_for_task :
    (exSched.Stop 10 ⟨20, 20, true, true⟩).returnedAt = 2 * 10 ∧
      (exSched.Stop 10 ⟨20, 20, true, false⟩).returnedAt = 2 * 10 ∧
      (exSched.Stop 10 ⟨15, 15, true, true⟩).returnedAt = 15 ∧
      (exSched.Stop 10 ⟨15, 15, true, true⟩).err = none :=
  ⟨rfl, rfl, rfl, rfl⟩

/-! ## Running -/

theorem forall₂_right_exists {α β : Type} {R : α → β → Prop} {l₁ : List α} {l₂ : List β}
    (h : List.Forall₂ R l₁ l₂) : ∀ b ∈ l₂, ∃ a ∈ l₁, R a b := by
  induction h with
  | nil => intro b hb; exact absurd hb (List.not_mem_nil _)
  | @cons a b l₁ l₂ hab _ ih =>
    intro b' hb'
    rcases List.mem_cons.1 hb' with rfl | hb'
    · exact ⟨a, List.mem_cons_self _ _, hab⟩
    · obtain ⟨a', ha', hR⟩ := ih b' hb'
      exact ⟨a', List.mem_cons_of_mem _ ha', hR⟩

theorem IsRunning_eq (s : TaskScheduler W) :
    s.IsRunning = decide (0 < s.cron.entries.length) := rfl

theorem IsRunning_iff (s : TaskScheduler W) : s.IsRunning = true ↔ s.cron.entries ≠ [] := by
  rw [IsRunning_eq]
  cases s.cron.entries <;> simp

/-- C11: in every reachable scheduler `IsRunning` is true exactly when the
trigger holds an entry; the trigger's entries are exactly those of the
registered tasks, one for one; so `IsRunning` is true exactly when the
registry is not empty, and neither `Start` nor `Stop` changes its answer. -/
theorem IsRunning_iff_registered (s : TaskScheduler W) (hs : Reachable s) :
    (s.IsRunning = true ↔ s.cron.Entries ≠ []) ∧
    List.Forall₂ Linked s.tasks s.cron.Entries ∧
    (∀ t ∈ s.tasks, (s.cron.entry? t.EntryID).isSome) ∧
    (∀ e ∈ s.cron.Entries, ∃ t ∈ s.tasks, Linked t e) ∧
    (s.IsRunning = true ↔ s.tasks ≠ []) ∧
    s.Start.IsRunning = s.IsRunning ∧
    (∀ timeout r, (s.Stop timeout r).sched.IsRunning = s.IsRunning) := by
  have hwf := hs.wellFormed
  refine ⟨IsRunning_iff s, hwf.linked, fun t ht => entry_of_task hwf ht,
    forall₂_right_exists hwf.linked, ?_, ?_, ?_⟩
  · rw [IsRunning_iff]
    have hlen := hwf.linked.length_eq
    constructor
    · intro h hnil
      rw [hnil] at hlen
      exact h (List.length_eq_zero.1 hlen.symm)
    · intro h hnil
      rw [hnil] at hlen
      exact h (List.length_eq_zero.1 hlen)
  · rw [IsRunning_eq, IsRunning_eq]
    unfold TaskScheduler.Start
    split <;> rfl
  · intro timeout r
    rw [IsRunning_eq, IsRunning_eq, Stop_sched]
    rfl

theorem IsRunning_iff_registered_witness :
    Reachable exStopped ∧ exStopped.cron.running = false ∧ exStopped.IsRunning = true ∧
      (exStopped.IsRunning = true ↔ exStopped.tasks ≠ []) :=
  ⟨exStopped_reachable, rfl, rfl,
    (IsRunning_iff_registered exStopped exStopped_reachable).2.2.2.2.1⟩

end Scheduler

namespace Core

variable {V : Type}

/-! ## The cache -/

theorem After_iff (t u : Int) : After t u = true ↔ u < t := by
  simp [After]

theorem After_eq_false_iff (t u : Int) : After t u = false ↔ t ≤ u := by
  simp [After]

/-- `Get` on a key that holds an entry. -/
theorem Get_of_item (c : simpleCache V) (now : Int) (key : String) (e : cacheEntry V)
    (h : c.items key = some e) :
    c.Get now key = if After now e.expiresAt then (none, c.delete key) else (some e.data, c) := by
  simp [simpleCache.Get, h]

theorem Get_of_absent (c : simpleCache V) (now : Int) (key : String) (h : c.items key = none) :
    c.Get now key = (none, c) := by
  simp [simpleCache.Get, h]

/-- `Get` of one key leaves the entries of the other keys alone. -/
theorem Get_items_other (c : simpleCache V) (now : Int) (key k : String) (hk : k ≠ key) :
    (c.Get now key).2.items k = c.items k := by
  cases h : c.items key with
  | none => rw [Get_of_absent c now key h]
  | some e =>
    rw [Get_of_item c now key e h]
    split
    · simp [simpleCache.delete, hk]
    · rfl

/-- An entry that has not expired at `t` survives an operation that leaves
its key alone. -/
theorem apply_leaves (c : simpleCache V) (key : String) (t : Int) (e : cacheEntry V)
    (op : CacheOp V) (hitem : c.items key = some e) (hfresh : t ≤ e.expiresAt)
    (hop : op.leaves key t) : (c.apply op).items key = some e := by
  cases op with
  | set now k value =>
    have hk : key ≠ k := fun h => hop h.symm
    simp [simpleCache.apply, simpleCache.Set, simpleCache.store, hk, hitem]
  | get now k =>
    have hnow : now ≤ t := hop
    by_cases hk : key = k
    · subst hk
      have hna : After now e.expiresAt = false := (After_eq_false_iff _ _).2 (by omega)
      simp [simpleCache.apply, Get_of_item c now key e hitem, hna, hitem]
    · simp only [simpleCache.apply]
      rw [Get_items_other c now k key hk, hitem]
  | delete k =>
    have hk : key ≠ k := fun h => hop h.symm
    simp [simpleCache.apply, simpleCache.Delete, simpleCache.delete, hk, hitem]
  | clear => exact absurd hop (by simp [CacheOp.leaves])
  | cleanup now =>
    have hnow : now ≤ t := hop
    have hna : After now e.expiresAt = false := (After_eq_false_iff _ _).2 (by omega)
    simp [simpleCache.apply, simpleCache.cleanup, hitem, hna]

theorem run_leaves (c : simpleCache V) (key : String) (t : Int) (e : cacheEntry V)
    (ops : List (CacheOp V)) (hitem : c.items key = some e) (hfresh : t ≤ e.expiresAt)
    (hops : ∀ op ∈ ops, op.leaves key t) : (c.run ops).items key = some e := by
  induction ops generalizing c with
  | nil => exact hitem
  | cons op ops ih =>
    have h1 := apply_leaves c key t e op hitem hfresh (hops op (List.mem_cons_self _ _))
    exact ih (c.apply op) h1 (fun o ho => hops o (List.mem_cons_of_mem _ ho))

/-- C12: after `Set(k, v)` at time `t0`, on any cache, whatever `k` held
before, the entry of `k` is `v` with an expiry of `t0 + ttl`; and after any
operations that are no write to `k` and happen no later than `t`, `Get(k)` at
a time `t` with `t0 ≤ t < t0 + ttl` returns `v` as found and keeps the
entry. -/
theorem Set_then_Get (c : simpleCache V) (k : String) (v : V) (t0 t : Int)
    (ops : List (CacheOp V)) (_h0 : t0 ≤ t) (h1 : t < t0 + c.ttl)
    (hops : ∀ op ∈ ops, op.leaves k t) :
    (c.Set t0 k v).items k = some { data := v, expiresAt := t0 + c.ttl } ∧
    (((c.Set t0 k v).run ops).Get t k).1 = some v ∧
    (((c.Set t0 k v).run ops).Get t k).2 = (c.Set t0 k v).run ops := by
  have hset : (c.Set t0 k v).items k = some { data := v, expiresAt := t0 + c.ttl } := by
    simp [simpleCache.Set, simpleCache.store]
  have hrun := run_leaves (c.Set t0 k v) k t _ ops hset (by show t ≤ t0 + c.ttl; omega) hops
  have hna : After t (t0 + c.ttl) = false := (After_eq_false_iff _ _).2 (by omega)
  refine ⟨hset, ?_, ?_⟩
  · rw [Get_of_item _ t k _ hrun]
    simp [hna]
  · rw [Get_of_item _ t k _ hrun]
    simp [hna]

theorem Set_then_Get_witness :
    (10 : Int) ≤ 60 ∧ (60 : Int) < 10 + exCache.ttl ∧
      (((exCache.Set 10 "k" 8).run [.get 20 "k", .cleanup 50, .set 55 "j" 1]).Get 60 "k").1 =
        some 8 :=
  ⟨by decide, by decide,
    (Set_then_Get exCache "k" 8 10 60 [.get 20 "k", .cleanup 50, .set 55 "j" 1] (by decide)
      (by decide) (by
        intro op hop
        simp only [List.mem_cons, List.mem_singleton, List.not_mem_nil, or_false] at hop
        rcases hop with rfl | rfl | rfl
        · show (20 : Int) ≤ 60
          decide
        · show (50 : Int) ≤ 60
          decide
        · show "j" ≠ "k"
          decide)).2.1⟩

/-- What one pass of the sweep leaves under a key that holds an entry. -/
theorem cleanup_of_item (c : simpleCache V) (ts : Int) (key : String) (e : cacheEntry V)
    (h : c.items key = some e) :
    (c.cleanup ts).items key = if After ts e.expiresAt then none else some e := by
  simp [simpleCache.cleanup, h]

theorem cleanup_of_absent (c : simpleCache V) (ts : Int) (key : String)
    (h : c.items key = none) : (c.cleanup ts).items key = none := by
  simp [simpleCache.cleanup, h]

/-- C13, as the code has it: for a cache entry with expiry time `expiresAt`,
`Get` at every time `now > expiresAt` returns nothing and removes the entry,
and it does so as well when a sweep has run before, at any time; at every
time `now ≤ expiresAt`, the instant `expiresAt` included, `Get` still returns
the value and keeps the entry. -/
theorem Get_expired (c : simpleCache V) (key : String) (e : cacheEntry V)
    (hitem : c.items key = some e) :
    (∀ now, e.expiresAt < now →
      (c.Get now key).1 = none ∧ (c.Get now key).2.items key = none ∧
      ∀ ts, ((c.cleanup ts).Get now key).1 = none ∧
        ((c.cleanup ts).Get now key).2.items key = none) ∧
    (∀ now, now ≤ e.expiresAt → c.Get now key = (some e.data, c)) := by
  constructor
  · intro now hexp
    have ha : After now e.expiresAt = true := (After_iff _ _).2 hexp
    refine ⟨?_, ?_, fun ts => ?_⟩
    · simp [Get_of_item c now key e hitem, ha]
    · simp [Get_of_item c now key e hitem, ha, simpleCache.delete]
    · cases hs : After ts e.expiresAt
      · have hkeep : (c.cleanup ts).items key = some e := by
          rw [cleanup_of_item c ts key e hitem, hs]; rfl
        simp [Get_of_item _ now key e hkeep, ha, simpleCache.delete]
      · have hgone : (c.cleanup ts).items key = none := by
          rw [cleanup_of_item c ts key e hitem, hs]; rfl
        simp [Get_of_absent _ now key hgone, hgone]
  · intro now hle
    have ha : After now e.expiresAt = false := (After_eq_false_iff _ _).2 hle
    simp [Get_of_item c now key e hitem, ha]

theorem Get_expired_witness :
    exCache.items "k" = some { data := 7, expiresAt := 100 } ∧ (100 : Int) < 101 ∧
      (exCache.Get 101 "k").1 = none ∧ (exCache.Get 101 "k").2.items "k" = none :=
  ⟨rfl, by decide,
    ((Get_expired exCache "k" { data := 7, expiresAt := 100 } rfl).1 101 (by decide)).1,
    ((Get_expired exCache "k" { data := 7, expiresAt := 100 } rfl).1 101 (by decide)).2.1⟩

/-- C13 as stated fails at `now = expiresAt`: the entry of `"k"` in `exCache`
expires at 100, and `Get` at time 100 returns its value and keeps it. -/
theorem Get_at_expiry_instant :
    exCache.items "k" = some { data := 7, expiresAt := 100 } ∧ (100 : Int) ≥ 100 ∧
      (exCache.Get 100 "k").1 = some 7 ∧
      (exCache.Get 100 "k").2.items "k" = some { data := 7, expiresAt := 100 } :=
  ⟨rfl, by decide, rfl, rfl⟩

/-- C14: for every cache, key `k` and times `ts ≤ tg`, `Get(k)` at `tg` returns
the same, and leaves the same under `k`, whether or not a sweep ran at `ts`.
The sweep removes an entry exactly when `Get` at `ts` would report it expired,
both by the test `After ts expiresAt`; it keeps every entry that `Get` at `ts`
would return, and adds none. -/
theorem cleanup_agrees_with_Get (c : simpleCache V) (ts tg : Int) (k : String) (h : ts ≤ tg) :
    ((c.cleanup ts).Get tg k).1 = (c.Get tg k).1 ∧
    ((c.cleanup ts).Get tg k).2.items k = (c.Get tg k).2.items k ∧
    (∀ key e, c.items key = some e →
      ((c.cleanup ts).items key = none ↔ After ts e.expiresAt = true) ∧
      ((c.Get ts key).1 = none ↔ After ts e.expiresAt = true) ∧
      ((c.cleanup ts).items key = none ↔ (c.Get ts key).1 = none)) ∧
    (∀ key, (c.Get ts key).1 ≠ none → (c.cleanup ts).items key = c.items key) ∧
    (∀ key, c.items key = none → (c.cleanup ts).items key = none) := by
  have hpred : ∀ key e, c.items key = some e →
      ((c.cleanup ts).items key = none ↔ After ts e.expiresAt = true) ∧
      ((c.Get ts key).1 = none ↔ After ts e.expiresAt = true) := by
    intro key e he
    rw [cleanup_of_item c ts key e he, Get_of_item c ts key e he]
    cases After ts e.expiresAt <;> simp
  refine ⟨?_, ?_, ?_, ?_, fun key hk => cleanup_of_absent c ts key hk⟩
  · cases hk : c.items k with
    | none =>
      rw [Get_of_absent c tg k hk, Get_of_absent _ tg k (cleanup_of_absent c ts k hk)]
    | some e =>
      cases hs : After ts e.expiresAt
      · have hkeep : (c.cleanup ts).items k = some e := by
          rw [cleanup_of_item c ts k e hk, hs]; rfl
        rw [Get_of_item _ tg k e hkeep, Get_of_item c tg k e hk]
        split <;> rfl
      · have hgone : (c.cleanup ts).items k = none := by
          rw [cleanup_of_item c ts k e hk, hs]; rfl
        have hlate : After tg e.expiresAt = true := by
          have := (After_iff _ _).1 hs
          exact (After_iff _ _).2 (by omega)
        rw [Get_of_absent _ tg k hgone, Get_of_item c tg k e hk, hlate]
        rfl
  · cases hk : c.items k with
    | none =>
      rw [Get_of_absent c tg k hk, Get_of_absent _ tg k (cleanup_of_absent c ts k hk),
        cleanup_of_absent c ts k hk, hk]
    | some e =>
      cases hs : After ts e.expiresAt
      · have hkeep : (c.cleanup ts).items k = some e := by
          rw [cleanup_of_item c ts k e hk, hs]; rfl
        rw [Get_of_item _ tg k e hkeep, Get_of_item c tg k e hk]
        split
        · simp [simpleCache.delete]
        · simp [hkeep, hk]
      · have hgone : (c.cleanup ts).items k = none := by
          rw [cleanup_of_item c ts k e hk, hs]; rfl
        have hlate : After tg e.expiresAt = true := by
          have := (After_iff _ _).1 hs
          exact (After_iff _ _).2 (by omega)
        rw [Get_of_absent _ tg k hgone, Get_of_item c tg k e hk, hlate]
        simp [hgone, simpleCache.delete]
  · intro key e he
    obtain ⟨h1, h2⟩ := hpred key e he
    exact ⟨h1, h2, h1.trans h2.symm⟩
  · intro key hret
    cases hk : c.items key with
    | none => exact cleanup_of_absent c ts key hk
    | some e =>
      have hna : After ts e.expiresAt = false := by
        cases ha : After ts e.expiresAt
        · rfl
        · exact absurd ((hpred key e hk).2.2 ha) hret
      rw [cleanup_of_item c ts key e hk, hna]
      rfl

theorem cleanup_agrees_with_Get_witness :
    (101 : Int) ≤ 150 ∧
      ((exCache.cleanup 101).Get 150 "k").1 = (exCache.Get 150 "k").1 ∧
      (exCache.cleanup 101).items "k" = none ∧ (exCache.cleanup 100).items "k" ≠ none :=
  ⟨by decide, (cleanup_agrees_with_Get exCache 101 150 "k" (by decide)).1, rfl, by decide⟩

/-! ## The cached list of users -/

theorem CancelExpire_userCache (st : Store) (id : Nat) (exec : Option String) :
    (st.CancelExpire id exec).1.userCache = st.userCache := by
  unfold Store.CancelExpire
  split
  · rfl
  · cases exec <;> rfl

theorem SetExpire_userCache (st : Store) (now : Int) (zone : Option String)
    (format : Int → String) (id useDays : Nat) (exec : Option String) :
    (st.SetExpire now zone format id useDays exec).1.userCache = st.userCache := by
  unfold Store.SetExpire
  cases zone with
  | some err => rfl
  | none =>
    simp only
    split
    · rfl
    · cases exec <;> rfl

theorem CleanDataByName_userCache (st : Store) (usernames : List String)
    (exec : Option String) : (st.CleanDataByName usernames exec).1.userCache = st.userCache := by
  unfold Store.CleanDataByName
  split
  · rfl
  · cases exec <;> rfl

theorem Clear_items (c : simpleCache V) (key : String) : c.Clear.items key = none := by
  simp only [simpleCache.Clear]
  cases c.items key <;> rfl

/-- The sibling `SetQuota` empties the cache when it succeeds. -/
theorem SetQuota_clears (st : Store) (id : Nat) (quota : Int) (key : String)
    (h : st.connected = true) :
    (st.SetQuota id quota none).2 = none ∧
      (st.SetQuota id quota none).1.userCache.items key = none := by
  simp only [Store.SetQuota, h, Bool.true_eq_false, if_false]
  exact ⟨trivial, Clear_items _ key⟩

/-- The sibling `CleanData` empties the cache when it succeeds. -/
theorem CleanData_clears (st : Store) (id : Nat) (key : String) (h : st.connected = true) :
    (st.CleanData id none).2 = none ∧ (st.CleanData id none).1.userCache.items key = none := by
  simp only [Store.CleanData, h, Bool.true_eq_false, if_false]
  exact ⟨trivial, Clear_items _ key⟩

/-- C15, on the code: with the list of all users cached at time 0, each of
`CancelExpire`, `SetExpire` and `CleanDataByName` succeeds, changes table
`users` and leaves `userCache` as it was, so `GetData()` ten nanoseconds later
returns the list from before the change; after the sibling `SetQuota`, which
clears the cache, `GetData()` returns the table as it is. -/
theorem stale_users_after_uncleared_write :
    (exStore.CancelExpire 1 none).2 = none ∧
    (exStore.CancelExpire 1 none).1.users ≠ exUsers ∧
    ((exStore.CancelExpire 1 none).1.GetData 10 [] none).2 = (exUsers, none) ∧
    (exStore.SetExpire 5 none (fun _ => "2027-01-01") 2 7 none).2 = none ∧
    (exStore.SetExpire 5 none (fun _ => "2027-01-01") 2 7 none).1.users ≠ exUsers ∧
    ((exStore.SetExpire 5 none (fun _ => "2027-01-01") 2 7 none).1.GetData 10 [] none).2 =
      (exUsers, none) ∧
    (exStore.CleanDataByName ["ann"] none).2 = none ∧
    (exStore.CleanDataByName ["ann"] none).1.users ≠ exUsers ∧
    ((exStore.CleanDataByName ["ann"] none).1.GetData 10 [] none).2 = (exUsers, none) ∧
    (exStore.SetQuota 1 5 none).2 = none ∧
    ((exStore.SetQuota 1 5 none).1.GetData 10 [] none).2 =
      ((exStore.SetQuota 1 5 none).1.users, none) ∧
    (exStore.SetQuota 1 5 none).1.users ≠ exUsers := by
  refine ⟨rfl, by decide, rfl, rfl, by decide, rfl, rfl, by decide, rfl, rfl, rfl, by decide⟩

end Core

namespace Scheduler

variable {W : Type}

/-! ## Registration by the controller -/

theorem AddTask_parser_eq (s : TaskScheduler W) (name spec : String) (fn : Work W) :
    (s.AddTask name spec fn).1.cron.parser = s.cron.parser := by
  rcases AddTask_cases s name spec fn with hsame | ⟨hnew, hacc⟩
  · rw [hsame]
  · rw [AddTask_ok s name spec fn hnew hacc]

theorem RemoveTask_parser_eq (s : TaskScheduler W) (name : String) :
    (s.RemoveTask name).1.cron.parser = s.cron.parser := by
  cases hl : s.lookup name with
  | none => rw [RemoveTask_absent s name hl]
  | some task => rw [RemoveTask_ok s name task hl]

theorem RemoveTask_lookup_self (s : TaskScheduler W) (name : String) :
    (s.RemoveTask name).1.lookup name = none := by
  cases hl : s.lookup name with
  | none => rw [RemoveTask_absent s name hl]; exact hl
  | some task =>
    rw [RemoveTask_ok s name task hl]
    simp only [TaskScheduler.lookup]
    apply find?_filter_none
    intro t _ ht
    simpa using ht

/-- `AddTask` under one name leaves what is registered under another. -/
theorem AddTask_lookup_other (s : TaskScheduler W) (name spec : String) (fn : Work W)
    (other : String) (h : other ≠ name) :
    (s.AddTask name spec fn).1.lookup other = s.lookup other := by
  rcases AddTask_cases s name spec fn with hsame | ⟨hnew, hacc⟩
  · rw [hsame]
  · rw [AddTask_ok s name spec fn hnew hacc]
    simp only [TaskScheduler.lookup, List.find?_append, List.find?_cons, List.find?_nil]
    have : (name == other) = false := by simpa using fun h' => h h'.symm
    simp [this]

/-- `AddTask` with a specification that the trigger rejects registers nothing
under the name. -/
theorem AddTask_rejected_lookup (s : TaskScheduler W) (name spec : String) (fn : Work W)
    (hrej : (s.cron.parser spec).isSome) (hnew : s.lookup name = none) :
    (s.AddTask name spec fn).1.lookup name = none ∧ (s.AddTask name spec fn).2.isSome := by
  obtain ⟨msg, hmsg⟩ := Option.isSome_iff_exists.1 hrej
  rw [AddTask_rejected s name spec fn msg hnew hmsg]
  exact ⟨hnew, rfl⟩

theorem Start_lookup (s : TaskScheduler W) (name : String) : s.Start.lookup name = s.lookup name := by
  unfold TaskScheduler.Start
  split <;> rfl

end Scheduler

namespace Controller

open Scheduler

variable {W : Type}

/-! ## The monthly reset -/

/-- For a day of the month, the schedule text has five fields. -/
theorem monthlySpec_fields (d : Nat) (h1 : 1 ≤ d) (h31 : d ≤ 31) :
    fields (monthlySpec d) = ["0", "0", toString d, "*", "*"] := by
  interval_cases d <;> rfl

theorem secondsParser_monthlySpec (descriptor : String → Option String)
    (sixFields : List String → Option String) (d : Nat) (h1 : 1 ≤ d) (h31 : d ≤ 31) :
    secondsParser descriptor sixFields (monthlySpec d) =
      some "expected exactly 6 fields, found 5" := by
  interval_cases d <;> rfl

theorem Atoi_toString (d : Nat) (h31 : d ≤ 31) : Atoi (toString d) = d := by
  interval_cases d <;> rfl

theorem toString_ne_empty (d : Nat) (h31 : d ≤ 31) : toString d ≠ "" := by
  interval_cases d <;> decide

/-- C16, on the code: for every reset day `d` from 1 to 31 the schedule text
that `ScheduleTask` and `UpdateResetDay` build has five fields, not six; the
trigger's parser with a seconds field rejects it; so `ScheduleTask` leaves
`monthly_reset` unregistered, and `UpdateResetDay(d)`, when `d` is a new
day, removes `monthly_reset`, registers nothing in its place, stores the day
and answers `success`. -/
theorem monthly_reset_not_registered (descriptor : String → Option String)
    (sixFields : List String → Option String) (d : Nat) (h1 : 1 ≤ d) (h31 : d ≤ 31) :
    fields (monthlySpec d) = ["0", "0", toString d, "*", "*"] ∧
    (fields (monthlySpec d)).length ≠ 6 ∧
    (secondsParser descriptor sixFields (monthlySpec d)).isSome ∧
    (∀ (dailyExpire monthlyReset : Work W) (app : App W),
      app.scheduler.cron.parser = secondsParser descriptor sixFields →
      app.values "reset_day" = some (toString d) →
      app.scheduler.lookup "monthly_reset" = none →
      (ScheduleTask dailyExpire monthlyReset app).scheduler.lookup "monthly_reset" = none) ∧
    (∀ (monthlyReset : Work W) (app : App W),
      app.scheduler.cron.parser = secondsParser descriptor sixFields →
      Atoi (GetValue app.values "reset_day") ≠ d →
      (UpdateResetDay monthlyReset d app).1.scheduler.lookup "monthly_reset" = none ∧
      (UpdateResetDay monthlyReset d app).1.values "reset_day" = some (toString d) ∧
      (UpdateResetDay monthlyReset d app).2 = "success") := by
  have hfields := monthlySpec_fields d h1 h31
  have hrej : ∀ p : String → Option String, p = secondsParser descriptor sixFields →
      (p (monthlySpec d)).isSome := by
    intro p hp
    rw [hp, secondsParser_monthlySpec descriptor sixFields d h1 h31]
    rfl
  have hd0 : (d : Int) ≠ 0 := by omega
  refine ⟨hfields, by rw [hfields]; simp, hrej _ rfl, ?_, ?_⟩
  · intro dailyExpire monthlyReset app hparser hval hnew
    have hstr : GetValue app.values "reset_day" = toString d := by simp [GetValue, hval]
    have hne := toString_ne_empty d h31
    have hday := Atoi_toString d h31
    simp only [ScheduleTask, hstr, hne, if_false, hday, ne_eq, hd0, not_false_eq_true, if_true]
    rw [Start_lookup]
    refine (AddTask_rejected_lookup _ _ _ _ (hrej _ ?_) ?_).1
    · rw [AddTask_parser_eq, hparser]
    · rw [AddTask_lookup_other _ _ _ _ _ (by decide), hnew]
  · intro monthlyReset app hparser hold
    have hle : ¬ d > 31 := by omega
    have hold' : ¬ (d : Int) = Atoi (GetValue app.values "reset_day") := fun h => hold h.symm
    have hdn : d ≠ 0 := by omega
    simp only [UpdateResetDay, hle, if_false, hold', ne_eq, hdn, not_false_eq_true, if_true]
    refine ⟨?_, by simp [SetValue], trivial⟩
    refine (AddTask_rejected_lookup _ _ _ _ (hrej _ ?_) ?_).1
    · rw [RemoveTask_parser_eq, hparser]
    · exact RemoveTask_lookup_self _ _

theorem monthly_reset_not_registered_witness :
    (1 : Nat) ≤ 7 ∧ (7 : Nat) ≤ 31 ∧
      fields (monthlySpec (7 : Nat)) = ["0", "0", "7", "*", "*"] ∧
      ((ScheduleTask exWork exWork (exApp 7)).scheduler.tasks.map (fun t => t.Name)) =
        ["daily_expire_check"] ∧
      (ScheduleTask exWork exWork (exApp 7)).scheduler.lookup "monthly_reset" = none :=
  ⟨by decide, by decide,
    (monthly_reset_not_registered (W := Nat) (fun _ => none) (fun _ => none) 7 (by decide)
      (by decide)).1,
    rfl,
    (monthly_reset_not_registered (fun _ => none) (fun _ => none) 7 (by decide)
      (by decide)).2.2.2.1 exWork exWork (exApp 7) rfl rfl rfl⟩

end Controller
